import Mathlib

/-!
Verification of the Square catalog cache manager
(`cache-system/square_cache_manager.py`) against its specification.

The development shallowly embeds the data model and the operations of
`SquareCacheManager`: JSON payloads are an inductive `Json` type, the three
MongoDB collections (`catalog_items`, `change_snapshots`, `sync_log`) are
lists inside a `CacheState`, wall-clock time is a counter that every
`datetime.now(timezone.utc)` call reads and advances, and failures of the
fetch / detect / upsert / log-write steps are injected through a `FailAt`
parameter.  `_calculate_hash` is embedded with a full executable SHA-256 and
a model of Python's `json.dumps(..., sort_keys=True, separators=(',', ':'))`.

Python records are modelled immutably: a fetched list that contains the same
record twice is modelled as two equal values (the scenario of two equal
dictionaries parsed from separate API pages).
-/

set_option maxRecDepth 40000
set_option maxHeartbeats 1000000

/-- JSON values as stored in the cache and returned by the Square API.
Numbers are restricted to integers (Square catalog versions are integers).
Objects are association lists of string keys; Python dictionaries have
unique keys, and all lookups below take the first occurrence, matching
dictionary semantics on that domain. -/
inductive Json where
  | null : Json
  | jbool (b : Bool) : Json
  | num (n : Int) : Json
  | str (s : String) : Json
  | arr (xs : List Json) : Json
  | obj (fields : List (String × Json)) : Json

mutual

def jsonDecEq : (a b : Json) → Decidable (a = b)
  | .null, .null => .isTrue rfl
  | .null, .jbool _ => .isFalse (fun h => Json.noConfusion h)
  | .null, .num _ => .isFalse (fun h => Json.noConfusion h)
  | .null, .str _ => .isFalse (fun h => Json.noConfusion h)
  | .null, .arr _ => .isFalse (fun h => Json.noConfusion h)
  | .null, .obj _ => .isFalse (fun h => Json.noConfusion h)
  | .jbool _, .null => .isFalse (fun h => Json.noConfusion h)
  | .jbool a, .jbool b =>
    match decEq a b with
    | .isTrue h => .isTrue (by rw [h])
    | .isFalse h => .isFalse (fun e => h (Json.jbool.inj e))
  | .jbool _, .num _ => .isFalse (fun h => Json.noConfusion h)
  | .jbool _, .str _ => .isFalse (fun h => Json.noConfusion h)
  | .jbool _, .arr _ => .isFalse (fun h => Json.noConfusion h)
  | .jbool _, .obj _ => .isFalse (fun h => Json.noConfusion h)
  | .num _, .null => .isFalse (fun h => Json.noConfusion h)
  | .num _, .jbool _ => .isFalse (fun h => Json.noConfusion h)
  | .num a, .num b =>
    match decEq a b with
    | .isTrue h => .isTrue (by rw [h])
    | .isFalse h => .isFalse (fun e => h (Json.num.inj e))
  | .num _, .str _ => .isFalse (fun h => Json.noConfusion h)
  | .num _, .arr _ => .isFalse (fun h => Json.noConfusion h)
  | .num _, .obj _ => .isFalse (fun h => Json.noConfusion h)
  | .str _, .null => .isFalse (fun h => Json.noConfusion h)
  | .str _, .jbool _ => .isFalse (fun h => Json.noConfusion h)
  | .str _, .num _ => .isFalse (fun h => Json.noConfusion h)
  | .str a, .str b =>
    match decEq a b with
    | .isTrue h => .isTrue (by rw [h])
    | .isFalse h => .isFalse (fun e => h (Json.str.inj e))
  | .str _, .arr _ => .isFalse (fun h => Json.noConfusion h)
  | .str _, .obj _ => .isFalse (fun h => Json.noConfusion h)
  | .arr _, .null => .isFalse (fun h => Json.noConfusion h)
  | .arr _, .jbool _ => .isFalse (fun h => Json.noConfusion h)
  | .arr _, .num _ => .isFalse (fun h => Json.noConfusion h)
  | .arr _, .str _ => .isFalse (fun h => Json.noConfusion h)
  | .arr xs, .arr ys =>
    match jsonListDecEq xs ys with
    | .isTrue h => .isTrue (by rw [h])
    | .isFalse h => .isFalse (fun e => h (Json.arr.inj e))
  | .arr _, .obj _ => .isFalse (fun h => Json.noConfusion h)
  | .obj _, .null => .isFalse (fun h => Json.noConfusion h)
  | .obj _, .jbool _ => .isFalse (fun h => Json.noConfusion h)
  | .obj _, .num _ => .isFalse (fun h => Json.noConfusion h)
  | .obj _, .str _ => .isFalse (fun h => Json.noConfusion h)
  | .obj _, .arr _ => .isFalse (fun h => Json.noConfusion h)
  | .obj fs, .obj gs =>
    match jsonFieldsDecEq fs gs with
    | .isTrue h => .isTrue (by rw [h])
    | .isFalse h => .isFalse (fun e => h (Json.obj.inj e))

def jsonListDecEq : (xs ys : List Json) → Decidable (xs = ys)
  | [], [] => .isTrue rfl
  | [], _ :: _ => .isFalse (fun h => List.noConfusion h)
  | _ :: _, [] => .isFalse (fun h => List.noConfusion h)
  | x :: xs, y :: ys =>
    match jsonDecEq x y, jsonListDecEq xs ys with
    | .isTrue h1, .isTrue h2 => .isTrue (by rw [h1, h2])
    | .isFalse h1, _ => .isFalse (fun e => h1 (List.cons.inj e).1)
    | _, .isFalse h2 => .isFalse (fun e => h2 (List.cons.inj e).2)

def jsonFieldsDecEq : (fs gs : List (String × Json)) → Decidable (fs = gs)
  | [], [] => .isTrue rfl
  | [], _ :: _ => .isFalse (fun h => List.noConfusion h)
  | _ :: _, [] => .isFalse (fun h => List.noConfusion h)
  | (k, v) :: fs, (k', v') :: gs =>
    match decEq k k', jsonDecEq v v', jsonFieldsDecEq fs gs with
    | .isTrue h1, .isTrue h2, .isTrue h3 => .isTrue (by rw [h1, h2, h3])
    | .isFalse h1, _, _ =>
      .isFalse (fun e => h1 (congrArg (fun l => (l.headD ("", Json.null)).1) e))
    | _, .isFalse h2, _ =>
      .isFalse (fun e => h2 (congrArg (fun l => (l.headD ("", Json.null)).2) e))
    | _, _, .isFalse h3 => .isFalse (fun e => h3 (List.cons.inj e).2)

end

instance : DecidableEq Json := jsonDecEq

/-- A JSON object body: what a Python `Dict` payload is in this model. -/
abbrev JObj := List (String × Json)

/-- Python dictionary lookup `d[k]` / `k in d` (first occurrence; dictionary
keys are unique, so this is exact on the reachable domain). -/
def lookupKey (k : String) : JObj → Option Json
  | [] => none
  | (k', v) :: fs => if k' = k then some v else lookupKey k fs

/-- Lexicographic (code-point) comparison of character lists, as Python's
`str` ordering used by `sorted`/`sort_keys`. -/
def charsLe : List Char → List Char → Bool
  | [], _ => true
  | _ :: _, [] => false
  | a :: as, b :: bs => if a = b then charsLe as bs else decide (a.toNat < b.toNat)

/-- Strict version of `charsLe`. -/
def charsLt : List Char → List Char → Bool
  | [], [] => false
  | [], _ :: _ => true
  | _ :: _, [] => false
  | a :: as, b :: bs => if a = b then charsLt as bs else decide (a.toNat < b.toNat)

/-- Key order on object fields used by `json.dumps(..., sort_keys=True)`. -/
def pairKeyLe (p q : String × Json) : Prop := charsLe p.1.data q.1.data = true

instance : DecidableRel pairKeyLe := fun p q =>
  inferInstanceAs (Decidable (charsLe p.1.data q.1.data = true))

/-- Strict key order on object fields. -/
def pairKeyLt (p q : String × Json) : Prop := charsLt p.1.data q.1.data = true

/-- The key sort performed by `json.dumps(..., sort_keys=True)` on one
object level (keys are unique, so any correct sort is stability-agnostic). -/
def sortFields (fs : JObj) : JObj := List.insertionSort pairKeyLe fs

/-- The lowercase hexadecimal digit for `n < 16`: `0`-`9` then `a`-`f`. -/
def hexDigit (n : Nat) : Char :=
  Char.ofNat (if n < 10 then 48 + n else 87 + n)

def hex4 (n : Nat) : List Char :=
  [hexDigit (n / 4096 % 16), hexDigit (n / 256 % 16), hexDigit (n / 16 % 16), hexDigit (n % 16)]

/-- Escaping of one character in a Python `json.dumps` string literal
(default `ensure_ascii=True`: short escapes, `\uXXXX` for control and
non-ASCII characters, surrogate pairs above the BMP). -/
def escChar (c : Char) : List Char :=
  if c = '"' then ['\\', '"']
  else if c = '\\' then ['\\', '\\']
  else if c = '\n' then ['\\', 'n']
  else if c = '\r' then ['\\', 'r']
  else if c = '\t' then ['\\', 't']
  else if c.toNat = 8 then ['\\', 'b']
  else if c.toNat = 12 then ['\\', 'f']
  else if c.toNat < 32 ∨ c.toNat > 126 then
    if c.toNat < 65536 then '\\' :: 'u' :: hex4 c.toNat
    else
      let n := c.toNat - 65536
      ('\\' :: 'u' :: hex4 (55296 + n / 1024)) ++ ('\\' :: 'u' :: hex4 (56320 + n % 1024))
  else [c]

/-- A JSON string literal as `json.dumps` renders it. -/
def pyQuote (s : String) : String :=
  String.mk ('"' :: (s.data.flatMap escChar ++ ['"']))

mutual

/-- Recursively sort every object level by key; `json.dumps` with
`sort_keys=True` emits each object's items in exactly this order, so
serializing the deep-sorted tree equals serializing with `sort_keys=True`. -/
def sortKeysDeep : Json → Json
  | .null => .null
  | .jbool b => .jbool b
  | .num n => .num n
  | .str s => .str s
  | .arr xs => .arr (sortKeysDeepList xs)
  | .obj fs => .obj (sortFields (sortKeysDeepFields fs))

def sortKeysDeepList : List Json → List Json
  | [] => []
  | x :: xs => sortKeysDeep x :: sortKeysDeepList xs

def sortKeysDeepFields : List (String × Json) → List (String × Json)
  | [] => []
  | (k, v) :: fs => (k, sortKeysDeep v) :: sortKeysDeepFields fs

end

mutual

/-- Serialization with separators `(',', ':')` of an already key-sorted tree. -/
def pyDumpsRaw : Json → String
  | .null => "null"
  | .jbool true => "true"
  | .jbool false => "false"
  | .num n => toString n
  | .str s => pyQuote s
  | .arr xs => "[" ++ pyDumpsList xs ++ "]"
  | .obj fs => "\x7b" ++ pyDumpsFields fs ++ "\x7d"

def pyDumpsList : List Json → String
  | [] => ""
  | [x] => pyDumpsRaw x
  | x :: xs => pyDumpsRaw x ++ "," ++ pyDumpsList xs

def pyDumpsFields : List (String × Json) → String
  | [] => ""
  | [(k, v)] => pyQuote k ++ ":" ++ pyDumpsRaw v
  | (k, v) :: fs => pyQuote k ++ ":" ++ pyDumpsRaw v ++ "," ++ pyDumpsFields fs

end

/-- `json.dumps(v, sort_keys=True, separators=(',', ':'))`. -/
def pyDumps (v : Json) : String := pyDumpsRaw (sortKeysDeep v)

def w32 (x : Nat) : Nat := x % 4294967296

def rotr32 (x n : Nat) : Nat := w32 ((x >>> n) ||| (x <<< (32 - n)))

def add32 (x y : Nat) : Nat := w32 (x + y)

def not32 (x : Nat) : Nat := 4294967295 ^^^ x

def sha256K : List Nat :=
  [1116352408, 1899447441, 3049323471, 3921009573, 961987163,
   1508970993, 2453635748, 2870763221, 3624381080, 310598401,
   607225278, 1426881987, 1925078388, 2162078206, 2614888103,
   3248222580, 3835390401, 4022224774, 264347078, 604807628,
   770255983, 1249150122, 1555081692, 1996064986, 2554220882,
   2821834349, 2952996808, 3210313671, 3336571891, 3584528711,
   113926993, 338241895, 666307205, 773529912, 1294757372,
   1396182291, 1695183700, 1986661051, 2177026350, 2456956037,
   2730485921, 2820302411, 3259730800, 3345764771, 3516065817,
   3600352804, 4094571909, 275423344, 430227734, 506948616,
   659060556, 883997877, 958139571, 1322822218, 1537002063,
   1747873779, 1955562222, 2024104815, 2227730452, 2361852424,
   2428436474, 2756734187, 3204031479, 3329325298]

/-- Split a byte list into 64-byte chunks (fuel-based structural recursion;
the fuel is the list length, which bounds the number of chunks). -/
def chunks64 : Nat → List Nat → List (List Nat)
  | 0, _ => []
  | _ + 1, [] => []
  | fuel + 1, l => l.take 64 :: chunks64 fuel (l.drop 64)

def toWords : List Nat → List Nat
  | b0 :: b1 :: b2 :: b3 :: rest => (((b0 * 256 + b1) * 256 + b2) * 256 + b3) :: toWords rest
  | _ => []

def smallSigma0 (x : Nat) : Nat := rotr32 x 7 ^^^ rotr32 x 18 ^^^ (x >>> 3)
def smallSigma1 (x : Nat) : Nat := rotr32 x 17 ^^^ rotr32 x 19 ^^^ (x >>> 10)
def bigSigma0 (x : Nat) : Nat := rotr32 x 2 ^^^ rotr32 x 13 ^^^ rotr32 x 22
def bigSigma1 (x : Nat) : Nat := rotr32 x 6 ^^^ rotr32 x 11 ^^^ rotr32 x 25

/-- SHA-256 message-schedule extension, keeping the schedule reversed (the
head is the most recently produced word). -/
def extendSchedule : Nat → List Nat → List Nat
  | 0, ws => ws
  | n + 1, ws =>
    let next := add32 (add32 (ws.getD 15 0) (smallSigma0 (ws.getD 14 0)))
                      (add32 (ws.getD 6 0) (smallSigma1 (ws.getD 1 0)))
    extendSchedule n (next :: ws)

structure Sha256State where
  a : Nat
  b : Nat
  c : Nat
  d : Nat
  e : Nat
  f : Nat
  g : Nat
  h : Nat

def sha256Round (st : Sha256State) (kw : Nat × Nat) : Sha256State :=
  let t1 := add32 (add32 (add32 st.h (bigSigma1 st.e))
                         (add32 ((st.e &&& st.f) ^^^ ((not32 st.e) &&& st.g)) kw.1))
                  kw.2
  let t2 := add32 (bigSigma0 st.a) ((st.a &&& st.b) ^^^ (st.a &&& st.c) ^^^ (st.b &&& st.c))
  { a := add32 t1 t2, b := st.a, c := st.b, d := st.c,
    e := add32 st.d t1, f := st.e, g := st.f, h := st.g }

def sha256Chunk (h : List Nat) (chunk : List Nat) : List Nat :=
  let w0 := toWords chunk
  let w := (extendSchedule 48 w0.reverse).reverse
  let init : Sha256State :=
    { a := h.getD 0 0, b := h.getD 1 0, c := h.getD 2 0, d := h.getD 3 0,
      e := h.getD 4 0, f := h.getD 5 0, g := h.getD 6 0, h := h.getD 7 0 }
  let st := (sha256K.zip w).foldl (fun s kw => sha256Round s (kw.1, kw.2)) init
  [add32 (h.getD 0 0) st.a, add32 (h.getD 1 0) st.b, add32 (h.getD 2 0) st.c,
   add32 (h.getD 3 0) st.d, add32 (h.getD 4 0) st.e, add32 (h.getD 5 0) st.f,
   add32 (h.getD 6 0) st.g, add32 (h.getD 7 0) st.h]

def sha256Pad (msg : List Nat) : List Nat :=
  let len := msg.length
  let zeros := (120 - (len + 1) % 64) % 64
  let bitLen := len * 8
  msg ++ [0x80] ++ List.replicate zeros 0 ++
    [(bitLen >>> 56) % 256, (bitLen >>> 48) % 256, (bitLen >>> 40) % 256, (bitLen >>> 32) % 256,
     (bitLen >>> 24) % 256, (bitLen >>> 16) % 256, (bitLen >>> 8) % 256, bitLen % 256]

def sha256InitH : List Nat :=
  [1779033703, 3144134277, 1013904242, 2773480762, 1359893119,
   2600822924, 528734635, 1541459225]

def sha256Bytes (msg : List Nat) : List Nat :=
  let padded := sha256Pad msg
  let hs := (chunks64 (padded.length) padded).foldl sha256Chunk sha256InitH
  hs.flatMap (fun word => [(word >>> 24) % 256, (word >>> 16) % 256, (word >>> 8) % 256, word % 256])

def bytesToHex (bs : List Nat) : String :=
  String.mk (bs.flatMap (fun b => [hexDigit (b / 16), hexDigit (b % 16)]))

def utf8Char (c : Char) : List Nat :=
  let n := c.toNat
  if n < 128 then [n]
  else if n < 2048 then [192 + n / 64, 128 + n % 64]
  else if n < 65536 then [224 + n / 4096, 128 + (n / 64) % 64, 128 + n % 64]
  else [240 + n / 262144, 128 + (n / 4096) % 64, 128 + (n / 64) % 64, 128 + n % 64]

def utf8Bytes (s : String) : List Nat := s.data.flatMap utf8Char

/-- `hashlib.sha256(s.encode()).hexdigest()`. -/
def sha256Hex (s : String) : String := bytesToHex (sha256Bytes (utf8Bytes s))

/-- The volatile-field removal of `_calculate_hash`: `clean_data = data.copy()`
followed by `del clean_data['updated_at']` / `del clean_data['version']`
when present — top-level keys only. -/
def stripVolatile (data : JObj) : JObj :=
  data.filter (fun p => p.1 != "updated_at" && p.1 != "version")

/-- `SquareCacheManager._calculate_hash`: SHA-256 hex digest of the canonical
JSON serialization of the payload without its top-level volatile fields. -/
def calculateHash (data : JObj) : String :=
  sha256Hex (pyDumps (.obj (stripVolatile data)))

/-- A document of the `catalog_items` collection: the Square item payload
plus the two bookkeeping fields `sync_from_square` adds before the upsert
(`content_hash`, and `cached_at`, a wall-clock instant modelled by the
clock counter).  Square payloads do not use these two key names, so holding
them apart from the payload is faithful. -/
structure CachedDoc where
  item : JObj
  content_hash : String
  cached_at : Nat
deriving DecidableEq

/-- The `ChangeSnapshot` dataclass.  `item_id` and `item_name` hold whatever
JSON values the record carries; `square_version_before/after` hold the raw
result of `.get('version')`, with JSON null for Python `None` (Python's
`json` module maps JSON null and absent-key sentinels to the same object
`None`). -/
structure ChangeSnapshot where
  item_id : Json
  item_name : Json
  change_type : String
  timestamp : Nat
  before_data : Option CachedDoc := none
  after_data : Option JObj := none
  differences : Option (List (String × Json × Json)) := none
  square_version_before : Json := .null
  square_version_after : Json := .null
deriving DecidableEq

/-- One document of the `sync_log` collection.  The two code paths build
dictionaries with different key sets, so every key that appears on only one
path is optional; `none` models the key being absent from the document. -/
structure SyncLogEntry where
  timestamp : Nat
  total_items : Option Nat := none
  created_count : Option Nat := none
  updated_count : Option Nat := none
  changes_detected : Option Nat := none
  duration_seconds : Option Nat := none
  error : Option String := none
  status : Option String := none
deriving DecidableEq

/-- The MongoDB state of a `SquareCacheManager` plus a wall clock: each
`datetime.now(timezone.utc)` call reads the counter and advances it. -/
structure CacheState where
  items : List CachedDoc
  changes : List ChangeSnapshot
  syncLog : List SyncLogEntry
  clock : Nat
deriving DecidableEq

/-- A leaf condition of a MongoDB query document. -/
inductive QueryCond where
  | eqv (v : Json)
  | regexi (pat : String)
deriving DecidableEq

/-- A value of a MongoDB query document: a leaf condition, or the clause
list stored under the `$or` operator key. -/
inductive QueryVal where
  | cond (c : QueryCond)
  | orClauses (cs : List (String × QueryCond))
deriving DecidableEq

/-- Lowercasing used by the `i` regex option (ASCII, as in the patterns and
names this repository works with). -/
def lowerChars (l : List Char) : List Char := l.map Char.toLower

def hasPrefixChars : List Char → List Char → Bool
  | [], _ => true
  | _ :: _, [] => false
  | a :: as, b :: bs => a == b && hasPrefixChars as bs

def containsChars (pat : List Char) : List Char → Bool
  | [] => hasPrefixChars pat []
  | s@(_ :: t) => hasPrefixChars pat s || containsChars pat t

/-- MongoDB `{"$regex": pat, "$options": "i"}` applied to a string, for
patterns free of regex metacharacters (all patterns in the specification's
contracts are plain substrings): a case-insensitive substring test. -/
def regexIMatch (pat s : String) : Bool :=
  containsChars (lowerChars pat.data) (lowerChars s.data)

/-- Does a condition match at a path that resolves to no value?  MongoDB
equality with null matches absent fields. -/
def condMissing : QueryCond → Bool
  | .eqv .null => true
  | _ => false

/-- A leaf condition against a resolved value.  Equality against an array
field matches the whole array or any element; a regex against an array
field matches any string element (MongoDB array semantics). -/
def condHolds (c : QueryCond) (v : Json) : Bool :=
  match c with
  | .eqv w => decide (v = w) || (match v with
      | .arr xs => xs.any (fun x => decide (x = w))
      | _ => false)
  | .regexi pat => match v with
    | .str s => regexIMatch pat s
    | .arr xs => xs.any (fun x => match x with
        | .str s => regexIMatch pat s
        | _ => false)
    | _ => false

mutual

/-- MongoDB dotted-path evaluation: descend objects by key, distribute over
arrays (a condition on `a.b` holds if it holds for any element of an array
at `a`), treat non-traversable values as missing. -/
def evalPath : Json → List String → QueryCond → Bool
  | v, [], c => condHolds c v
  | .obj fs, k :: rest, c => evalPathObj fs k rest c
  | .arr xs, k :: rest, c => evalPathArr xs (k :: rest) c
  | _, _ :: _, c => condMissing c

def evalPathObj : List (String × Json) → String → List String → QueryCond → Bool
  | [], _, _, c => condMissing c
  | (k', v) :: fs, k, rest, c =>
    if k' = k then evalPath v rest c else evalPathObj fs k rest c

def evalPathArr : List Json → List String → QueryCond → Bool
  | [], _, _ => false
  | x :: xs, ks, c => evalPath x ks c || evalPathArr xs ks c

end

/-- `str.split('.')` on a path. -/
def splitPathAux : List Char → List Char → List String
  | [], acc => [String.mk acc.reverse]
  | c :: cs, acc =>
    if c = '.' then String.mk acc.reverse :: splitPathAux cs []
    else splitPathAux cs (c :: acc)

def splitPath (p : String) : List String := splitPathAux p.data []

/-- Evaluation of a whole query document against an item dictionary:
every top-level entry must hold; the `$or` entry holds when any of its
clauses does. -/
def matchesDoc (query : List (String × QueryVal)) (d : JObj) : Bool :=
  query.all (fun kv =>
    match kv.2 with
    | .cond c => evalPath (.obj d) (splitPath kv.1) c
    | .orClauses cs => cs.any (fun kc => evalPath (.obj d) (splitPath kc.1) kc.2))

/-- Whether a cached document matches the query `{"id": idv}`. -/
def idMatches (d : CachedDoc) (idv : Json) : Bool :=
  evalPath (.obj d.item) ["id"] (.eqv idv)

/-- `items_collection.find_one({"id": item_id})`: the first document whose
`id` field matches. -/
def findOne (items : List CachedDoc) (idv : Json) : Option CachedDoc :=
  items.find? (fun d => idMatches d idv)

/-- `items_collection.replace_one({"id": idv}, doc, upsert=True)`: replace
the first matching document, or append when none matches. -/
def replaceOne (items : List CachedDoc) (idv : Json) (doc : CachedDoc) : List CachedDoc :=
  match items with
  | [] => [doc]
  | d :: ds =>
    if idMatches d idv then doc :: ds
    else d :: replaceOne ds idv doc

/-- `square_item['id']`.  A record without an `id` key raises `KeyError` in
Python; that failure mode is covered by the injected-failure model, and all
records in the claims carry an id, so the accessor is modelled total with a
null sentinel. -/
def idOf (r : JObj) : Json := (lookupKey "id" r).getD .null

/-- `square_item.get('item_data', {}).get('name', 'Unknown')` (a non-dict
`item_data` would raise in Python; unreachable for catalog payloads and
modelled as the default). -/
def itemNameOf (r : JObj) : Json :=
  match lookupKey "item_data" r with
  | some (.obj o) => (lookupKey "name" o).getD (.str "Unknown")
  | _ => .str "Unknown"

/-- `square_item.get('version')`. -/
def versionOf (r : JObj) : Json := (lookupKey "version" r).getD .null

/-- The allowlist `compare_fields` of `_find_differences`. -/
def compareFields : List String :=
  ["item_data.name", "item_data.description", "item_data.image_ids",
   "item_data.variations", "item_data.categories", "version", "updated_at"]

mutual

/-- `_get_nested_value`, after splitting the dotted path: sequential key
lookup that returns the Python `None` sentinel (JSON null — `json` parses
JSON null to the same object) as soon as a segment is missing or the value
at hand is not a dictionary. -/
def getNestedGo : Json → List String → Json
  | v, [] => v
  | .obj fs, k :: rest => getNestedGoObj fs k rest
  | _, _ :: _ => .null

def getNestedGoObj : List (String × Json) → String → List String → Json
  | [], _, _ => .null
  | (k', v) :: fs, k, rest =>
    if k' = k then getNestedGo v rest else getNestedGoObj fs k rest

end

/-- `SquareCacheManager._get_nested_value`. -/
def getNestedValue (data : JObj) (path : String) : Json :=
  getNestedGo (.obj data) (splitPath path)

/-- `SquareCacheManager._find_differences`: for each allowlisted path whose
resolved values differ, record a `(before, after)` entry, in allowlist
order. -/
def findDifferences (before after : JObj) : List (String × Json × Json) :=
  compareFields.filterMap (fun fieldPath =>
    let beforeVal := getNestedValue before fieldPath
    let afterVal := getNestedValue after fieldPath
    if beforeVal = afterVal then none else some (fieldPath, beforeVal, afterVal))

/-- `SquareCacheManager._detect_changes`, reading the `catalog_items`
collection as it is at call time.  `clock` is the value the embedded
`datetime.now` call would return for the snapshot timestamp. -/
def detectChanges (items : List CachedDoc) (clock : Nat) (squareItem : JObj) :
    Option ChangeSnapshot :=
  let itemId := idOf squareItem
  match findOne items itemId with
  | none =>
    some { item_id := itemId, item_name := itemNameOf squareItem,
           change_type := "create", timestamp := clock,
           before_data := none, after_data := some squareItem,
           square_version_after := versionOf squareItem }
  | some cached =>
    let squareHash := calculateHash squareItem
    let cachedHash := cached.content_hash
    if squareHash ≠ cachedHash then
      some { item_id := itemId, item_name := itemNameOf squareItem,
             change_type := "update", timestamp := clock,
             before_data := some cached, after_data := some squareItem,
             differences := some (findDifferences cached.item squareItem),
             square_version_before := (lookupKey "version" cached.item).getD .null,
             square_version_after := versionOf squareItem }
    else none

/-- Failure injection for `sync_from_square`: which step of the run raises.
The recovery write of the failed `SyncRun` itself is assumed to succeed, as
in the specification's failure contract. -/
inductive FailAt where
  | noFail
  | fetchStep (msg : String)
  | detectStep (k : Nat) (msg : String)
  | upsertStep (k : Nat) (msg : String)
  | insertChangesStep (msg : String)
  | insertLogStep (msg : String)
deriving DecidableEq

def failsDetect (f : FailAt) (k : Nat) : Option String :=
  match f with
  | .detectStep k' m => if k' = k then some m else none
  | _ => none

def failsUpsert (f : FailAt) (k : Nat) : Option String :=
  match f with
  | .upsertStep k' m => if k' = k then some m else none
  | _ => none

/-- The loop-local accumulators of `sync_from_square` (`changes`,
`created_count`, `updated_count`) together with the live collection state
and the clock. -/
structure LoopState where
  items : List CachedDoc
  clock : Nat
  changes : List ChangeSnapshot
  created : Nat
  updated : Nat
deriving DecidableEq

/-- The `for item in square_items` loop of `sync_from_square`: detect
against the live collection, accumulate the snapshot and the per-type
counts, then upsert the record with a fresh `content_hash` and
`cached_at = now()`.  On an injected failure the loop aborts with the
state reached so far (the accumulated snapshots are local to the run and
are not persisted by the caller's error path). -/
def syncLoop (f : FailAt) : Nat → LoopState → List JObj →
    Except (String × LoopState) LoopState
  | _, st, [] => .ok st
  | k, st, item :: rest =>
    match failsDetect f k with
    | some m => .error (m, st)
    | none =>
      let snap := detectChanges st.items st.clock item
      let clock1 := match snap with
        | some _ => st.clock + 1
        | none => st.clock
      let changes1 := match snap with
        | some c => st.changes ++ [c]
        | none => st.changes
      let created1 := match snap with
        | some c => if c.change_type = "create" then st.created + 1 else st.created
        | none => st.created
      let updated1 := match snap with
        | some c =>
          if c.change_type = "create" then st.updated
          else if c.change_type = "update" then st.updated + 1 else st.updated
        | none => st.updated
      match failsUpsert f k with
      | some m =>
        .error (m, { items := st.items, clock := clock1 + 1,
                     changes := changes1, created := created1, updated := updated1 })
      | none =>
        let newDoc : CachedDoc :=
          { item := item, content_hash := calculateHash item, cached_at := clock1 }
        syncLoop f (k + 1)
          { items := replaceOne st.items (idOf item) newDoc, clock := clock1 + 1,
            changes := changes1, created := created1, updated := updated1 } rest

/-- The error path of `sync_from_square`: insert
`{timestamp: sync_start, error: str(e), status: "failed"}` into the sync
log, then re-raise. -/
def failedEntry (start : Nat) (msg : String) : SyncLogEntry :=
  { timestamp := start, error := some msg, status := some "failed" }

/-- The tail of the success path: insert the accumulated snapshots (already
done by the caller), build `sync_result` and insert it — unless the log
write itself is the injected failure, in which case the error path runs. -/
def finishSync (s : CacheState) (start : Nat) (st : LoopState) (total : Nat)
    (f : FailAt) : Except String SyncLogEntry × CacheState :=
  let changesColl := s.changes ++ st.changes
  let entry : SyncLogEntry :=
    { timestamp := start, total_items := some total,
      created_count := some st.created, updated_count := some st.updated,
      changes_detected := some st.changes.length,
      duration_seconds := some (st.clock - start) }
  match f with
  | .insertLogStep m =>
    (.error m, { items := st.items, changes := changesColl,
                 syncLog := s.syncLog ++ [failedEntry start m], clock := st.clock + 1 })
  | _ =>
    (.ok entry, { items := st.items, changes := changesColl,
                  syncLog := s.syncLog ++ [entry], clock := st.clock + 1 })

/-- `SquareCacheManager.sync_from_square`, with the fetched record list and
the injected failure as parameters.  Returns the `sync_result` dictionary
or the re-raised exception message, together with the final state. -/
def syncFromSquare (s : CacheState) (fetched : List JObj) (f : FailAt) :
    Except String SyncLogEntry × CacheState :=
  let start := s.clock
  let clock0 := s.clock + 1
  match f with
  | .fetchStep m =>
    (.error m, { s with clock := clock0, syncLog := s.syncLog ++ [failedEntry start m] })
  | _ =>
    match syncLoop f 0
        { items := s.items, clock := clock0, changes := [], created := 0, updated := 0 }
        fetched with
    | .error (m, st) =>
      (.error m, { items := st.items, changes := s.changes,
                   syncLog := s.syncLog ++ [failedEntry start m], clock := st.clock })
    | .ok st =>
      match f with
      | .insertChangesStep m =>
        if st.changes.isEmpty then finishSync s start st fetched.length f
        else
          (.error m, { items := st.items, changes := s.changes,
                       syncLog := s.syncLog ++ [failedEntry start m], clock := st.clock })
      | _ => finishSync s start st fetched.length f

/-- Python truthiness of an optional string pattern argument: absent or
empty patterns are falsy. -/
def truthyPattern : Option String → Bool
  | some s => decide (s ≠ "")
  | none => false

def namePathKey : String := "item_data.name"

def skuPathKey : String := "item_data.variations.item_variation_data.sku"

/-- Python dictionary assignment `query[key] = value`. -/
def setQueryKey (q : List (String × QueryVal)) (k : String) (v : QueryVal) :
    List (String × QueryVal) :=
  match q with
  | [] => [(k, v)]
  | (k', v') :: rest => if k' = k then (k, v) :: rest else (k', v') :: setQueryKey rest k v

/-- The query document built by `search_cached_items`: `$or` of the
case-insensitive name and SKU regexes when both patterns are truthy, a
single regex clause when one is, nothing when neither is; then each extra
filter assigned as an exact-match entry. -/
def buildQuery (namePattern skuPattern : Option String) (filters : JObj) :
    List (String × QueryVal) :=
  let base : List (String × QueryVal) :=
    if truthyPattern namePattern && truthyPattern skuPattern then
      [("$or", .orClauses
        [(namePathKey, .regexi (namePattern.getD "")),
         (skuPathKey, .regexi (skuPattern.getD ""))])]
    else if truthyPattern namePattern then
      [(namePathKey, .cond (.regexi (namePattern.getD "")))]
    else if truthyPattern skuPattern then
      [(skuPathKey, .cond (.regexi (skuPattern.getD "")))]
    else []
  filters.foldl (fun q kv => setQueryKey q kv.1 (.cond (.eqv kv.2))) base

/-- `SquareCacheManager.search_cached_items`: `find` returns the matching
documents in collection order. -/
def searchCachedItems (s : CacheState) (namePattern skuPattern : Option String)
    (filters : JObj) : List CachedDoc :=
  s.items.filter (fun d => matchesDoc (buildQuery namePattern skuPattern filters) d.item)

/-- The effective value a cached document exposes under the `id` query key
(JSON null when the field is absent, the Mongo null-matching sentinel). -/
def effId (d : CachedDoc) : Json := (lookupKey "id" d.item).getD .null

def notArr : Json → Bool
  | .arr _ => false
  | _ => true

/-- All documents of a collection expose a non-array id value; array-valued
ids make a Mongo equality query match several distinct values. -/
def scalarIds (items : List CachedDoc) : Prop :=
  ∀ d ∈ items, notArr (effId d) = true

/-- The item name of a cached record when it is a string, read the way the
specification's search contract describes it. -/
def specItemName (d : CachedDoc) : Option String :=
  match lookupKey "item_data" d.item with
  | some (.obj o) =>
    match lookupKey "name" o with
    | some (.str s) => some s
    | _ => none
  | _ => none

/-- The specification's name-pattern predicate: the item name matches the
pattern case-insensitively. -/
def specNameMatches (pat : String) (d : CachedDoc) : Bool :=
  match specItemName d with
  | some s => regexIMatch pat s
  | none => false

/-- Whether one variation entry's SKU matches the pattern
case-insensitively. -/
def variationSkuMatches (pat : String) : Json → Bool
  | .obj vo =>
    (match lookupKey "item_variation_data" vo with
     | some (.obj ivd) =>
       (match lookupKey "sku" ivd with
        | some (.str s) => regexIMatch pat s
        | _ => false)
     | _ => false)
  | _ => false

/-- Whether some variation's SKU matches the pattern case-insensitively
(what the Mongo dotted path actually tests). -/
def specAnySkuMatches (pat : String) (d : CachedDoc) : Bool :=
  match lookupKey "item_data" d.item with
  | some (.obj o) =>
    match lookupKey "variations" o with
    | some (.arr vs) => vs.any (variationSkuMatches pat)
    | _ => false
  | _ => false

/-- Modelled from the spec: the "first-variation SKU" the search contract
speaks of (the CLI output also reads `variations[0]`); used only to compare
the specified behavior with the embedded one. -/
def firstVariationSku (d : CachedDoc) : Option String :=
  match lookupKey "item_data" d.item with
  | some (.obj o) =>
    match lookupKey "variations" o with
    | some (.arr (v :: _)) =>
      match v with
      | .obj vo =>
        match lookupKey "item_variation_data" vo with
        | some (.obj ivd) =>
          match lookupKey "sku" ivd with
          | some (.str s) => some s
          | _ => none
        | _ => none
      | _ => none
    | _ => none
  | _ => none

/-- A variation entry in the shape Square catalog payloads use: an object
whose optional `item_variation_data` is an object whose optional `sku` is
not an array. -/
def wfVariation : Json → Bool
  | .obj vo =>
    match lookupKey "item_variation_data" vo with
    | some (.obj ivd) =>
      (match lookupKey "sku" ivd with
       | some v => notArr v
       | none => true)
    | some v => notArr v
    | none => true
  | _ => false

/-- A cached document in the shape Square catalog payloads use: `item_data`
absent or an object, whose optional `name` is not an array and whose
optional `variations` is an array of well-formed variation entries.  On
this domain the Mongo dotted-path evaluation coincides with the
specification's reading of the two search patterns. -/
def wfDoc (d : CachedDoc) : Bool :=
  match lookupKey "item_data" d.item with
  | some (.obj o) =>
    (match lookupKey "name" o with
     | some v => notArr v
     | none => true) &&
    (match lookupKey "variations" o with
     | some (.arr vs) => vs.all wfVariation
     | some (.obj _) => false
     | some _ => true
     | none => true)
  | some (.arr _) => false
  | _ => true

def wfState (s : CacheState) : Prop := ∀ d ∈ s.items, wfDoc d = true

/-- An empty cache manager state. -/
def emptyCache : CacheState := { items := [], changes := [], syncLog := [], clock := 0 }

/-- A sample Square catalog record. -/
def xWidget : JObj :=
  [("id", Json.str "ITEM_A"), ("item_data", Json.obj [("name", Json.str "Widget")])]

/-- Two records with the same id and different content. -/
def xP : JObj := [("id", Json.str "ITEM_A"), ("item_data", Json.obj [("name", Json.str "P")])]

def yQ : JObj := [("id", Json.str "ITEM_A"), ("item_data", Json.obj [("name", Json.str "Q")])]

def blueMugItem : JObj :=
  [("id", Json.str "ITEM_MUG"), ("item_data", Json.obj [("name", Json.str "Blue Mug")])]

def redCupItem : JObj :=
  [("id", Json.str "ITEM_CUP"), ("item_data", Json.obj [("name", Json.str "Red Cup")])]

def blueMugDoc : CachedDoc := { item := blueMugItem, content_hash := "h1", cached_at := 0 }

def redCupDoc : CachedDoc := { item := redCupItem, content_hash := "h2", cached_at := 0 }

/-- The cache of the specification's concrete search scenario. -/
def mugCupState : CacheState :=
  { items := [blueMugDoc, redCupDoc], changes := [], syncLog := [], clock := 5 }

/-- An item whose first variation has SKU `AAA` and second variation `BBB`. -/
def twoVarItem : JObj :=
  [("id", Json.str "ITEM_2V"),
   ("item_data", Json.obj
     [("name", Json.str "Tool"),
      ("variations", Json.arr
        [Json.obj [("item_variation_data", Json.obj [("sku", Json.str "AAA")])],
         Json.obj [("item_variation_data", Json.obj [("sku", Json.str "BBB")])]])])]

def twoVarDoc : CachedDoc := { item := twoVarItem, content_hash := "h3", cached_at := 0 }

def twoVarState : CacheState :=
  { items := [twoVarDoc], changes := [], syncLog := [], clock := 0 }

/-- Two payloads equal after stripping the top-level volatile fields. -/
def hashPayloadA : JObj := [("version", Json.num 1), ("name", Json.str "x")]

def hashPayloadB : JObj := [("name", Json.str "x"), ("updated_at", Json.str "2024-01-01")]

/-- Two payloads that differ only in a nested field named `version`. -/
def nestedV1 : JObj := [("id", Json.str "A"), ("item_data", Json.obj [("version", Json.num 1)])]

def nestedV2 : JObj := [("id", Json.str "A"), ("item_data", Json.obj [("version", Json.num 2)])]

/-- A cached document and an incoming record that differ only in the item
name, for the update-diff scenario. -/
def oldNameDoc : CachedDoc :=
  { item := [("id", Json.str "C7"), ("item_data", Json.obj [("name", Json.str "Old")])],
    content_hash := "", cached_at := 0 }

def newNameItem : JObj :=
  [("id", Json.str "C7"), ("item_data", Json.obj [("name", Json.str "New")])]

/-- The loop state carried out of `syncLoop`, whether it finished or
aborted. -/
def loopResultState : Except (String × LoopState) LoopState → LoopState
  | .ok st => st
  | .error (_, st) => st

/-- Count of snapshots of a given change type. -/
def countType (t : String) (cs : List ChangeSnapshot) : Nat :=
  cs.countP (fun c => decide (c.change_type = t))

theorem findOne_cons (d : CachedDoc) (items : List CachedDoc) (v : Json) :
    findOne (d :: items) v = if idMatches d v then some d else findOne items v := by
  simp [findOne, List.find?_cons]
  cases h : idMatches d v <;> simp [h]

theorem findOne_eq_none_iff (items : List CachedDoc) (v : Json) :
    findOne items v = none ↔ ∀ d ∈ items, idMatches d v = false := by
  simp [findOne, List.find?_eq_none]

theorem replaceOne_of_not_found (items : List CachedDoc) (v : Json) (doc : CachedDoc)
    (h : ∀ d ∈ items, idMatches d v = false) :
    replaceOne items v doc = items ++ [doc] := by
  induction items with
  | nil => rfl
  | cons d ds ih =>
    have hd := h d (by simp)
    simp [replaceOne, hd]
    exact ih (fun d' hd' => h d' (by simp [hd']))

theorem idMatches_mk_self (x : JObj) (hsh : String) (t : Nat) :
    idMatches { item := x, content_hash := hsh, cached_at := t } (idOf x) = true := by
  unfold idMatches idOf
  show evalPath (.obj x) ["id"] (.eqv ((lookupKey "id" x).getD .null)) = true
  have hobj : ∀ (fs : JObj) (rest : List String) (c : QueryCond),
      evalPathObj fs "id" rest c =
        (match lookupKey "id" fs with
         | some w => evalPath w rest c
         | none => condMissing c) := by
    intro fs rest c
    induction fs with
    | nil => rfl
    | cons p ps ih =>
      obtain ⟨k', v⟩ := p
      by_cases hk : k' = "id" <;> simp [evalPathObj, lookupKey, hk, ih]
  rw [show evalPath (.obj x) ["id"] (.eqv ((lookupKey "id" x).getD .null)) =
        evalPathObj x "id" [] (.eqv ((lookupKey "id" x).getD .null)) from rfl, hobj]
  cases hx : lookupKey "id" x with
  | none => simp [condMissing]
  | some w => simp [evalPath, condHolds]

theorem detect_none_create (items : List CachedDoc) (clock : Nat) (r : JObj)
    (h : findOne items (idOf r) = none) :
    detectChanges items clock r = some
      { item_id := idOf r, item_name := itemNameOf r, change_type := "create",
        timestamp := clock, before_data := none, after_data := some r,
        square_version_after := versionOf r } := by
  simp only [detectChanges]
  rw [h]

theorem detect_found_same_hash (items : List CachedDoc) (clock : Nat) (r : JObj)
    (d : CachedDoc) (h : findOne items (idOf r) = some d)
    (hh : d.content_hash = calculateHash r) :
    detectChanges items clock r = none := by
  simp only [detectChanges]
  rw [h]
  simp [hh]

theorem detect_found_ne_hash (items : List CachedDoc) (clock : Nat) (r : JObj)
    (d : CachedDoc) (h : findOne items (idOf r) = some d)
    (hh : calculateHash r ≠ d.content_hash) :
    detectChanges items clock r = some
      { item_id := idOf r, item_name := itemNameOf r, change_type := "update",
        timestamp := clock, before_data := some d, after_data := some r,
        differences := some (findDifferences d.item r),
        square_version_before := (lookupKey "version" d.item).getD .null,
        square_version_after := versionOf r } := by
  simp only [detectChanges]
  rw [h]
  simp [hh]

theorem detect_change_type (items : List CachedDoc) (clock : Nat) (r : JObj)
    (c : ChangeSnapshot) (h : detectChanges items clock r = some c) :
    c.change_type = "create" ∨ c.change_type = "update" := by
  simp only [detectChanges] at h
  rcases hf : findOne items (idOf r) with _ | d
  · rw [hf] at h
    simp at h
    left
    rw [← h]
  · rw [hf] at h
    by_cases hh : calculateHash r ≠ d.content_hash
    · simp [hh] at h
      right
      rw [← h]
    · simp [hh] at h

theorem failsDetect_noFail (k : Nat) : failsDetect .noFail k = none := rfl

theorem failsUpsert_noFail (k : Nat) : failsUpsert .noFail k = none := rfl

theorem countType_cons (t : String) (c : ChangeSnapshot) (cs : List ChangeSnapshot) :
    countType t (c :: cs) = (if c.change_type = t then 1 else 0) + countType t cs := by
  simp only [countType, List.countP_cons]
  by_cases h : c.change_type = t <;> simp [h] <;> omega

/-- Every terminating or aborting run of the sync loop extends the local
snapshot list by snapshots that are all creates or updates, and the two
counters count exactly those. -/
theorem syncLoop_shape (f : FailAt) :
    ∀ (l : List JObj) (k : Nat) (st : LoopState),
      ∃ cs, (loopResultState (syncLoop f k st l)).changes = st.changes ++ cs ∧
        (loopResultState (syncLoop f k st l)).created = st.created + countType "create" cs ∧
        (loopResultState (syncLoop f k st l)).updated = st.updated + countType "update" cs ∧
        ∀ c ∈ cs, c.change_type = "create" ∨ c.change_type = "update" := by
  intro l
  induction l with
  | nil =>
    intro k st
    exact ⟨[], by simp [syncLoop, loopResultState, countType]⟩
  | cons item rest ih =>
    intro k st
    rcases hd : failsDetect f k with _ | m
    · rcases hs : detectChanges st.items st.clock item with _ | c
      · rcases hu : failsUpsert f k with _ | m
        · obtain ⟨cs, h1, h2, h3, h4⟩ := ih (k + 1)
            { items := replaceOne st.items (idOf item)
                { item := item, content_hash := calculateHash item, cached_at := st.clock },
              clock := st.clock + 1, changes := st.changes,
              created := st.created, updated := st.updated }
          refine ⟨cs, ?_, ?_, ?_, h4⟩ <;>
            simp only [syncLoop, hd, hu, hs] <;> first
              | exact h1
              | exact h2
              | exact h3
        · refine ⟨[], ?_⟩
          simp [syncLoop, hd, hu, hs, loopResultState, countType]
      · have htype := detect_change_type st.items st.clock item c hs
        rcases hu : failsUpsert f k with _ | m
        · obtain ⟨cs, h1, h2, h3, h4⟩ := ih (k + 1)
            { items := replaceOne st.items (idOf item)
                { item := item, content_hash := calculateHash item, cached_at := st.clock + 1 },
              clock := st.clock + 1 + 1, changes := st.changes ++ [c],
              created := if c.change_type = "create" then st.created + 1 else st.created,
              updated := if c.change_type = "create" then st.updated
                else if c.change_type = "update" then st.updated + 1 else st.updated }
          simp only at h1 h2 h3
          refine ⟨c :: cs, ?_, ?_, ?_, ?_⟩
          · simp only [syncLoop, hd, hu, hs]
            rw [h1]
            simp
          · simp only [syncLoop, hd, hu, hs]
            rw [h2, countType_cons]
            rcases htype with ht | ht <;> simp [ht] <;> omega
          · simp only [syncLoop, hd, hu, hs]
            rw [h3, countType_cons]
            rcases htype with ht | ht <;> simp [ht] <;> omega
          · intro c' hc'
            rcases List.mem_cons.mp hc' with he | he
            · rw [he]; exact htype
            · exact h4 c' he
        · refine ⟨[c], ?_, ?_, ?_, ?_⟩
          · simp [syncLoop, hd, hu, hs, loopResultState]
          · simp only [syncLoop, hd, hu, hs, loopResultState, countType_cons]
            rcases htype with ht | ht <;> simp [ht, countType]
          · simp only [syncLoop, hd, hu, hs, loopResultState, countType_cons]
            rcases htype with ht | ht <;> simp [ht, countType]
          · intro c' hc'
            rw [List.mem_singleton.mp hc']
            exact htype
    · refine ⟨[], ?_⟩
      simp [syncLoop, hd, loopResultState, countType]

/-- Without an injected failure the loop always terminates normally. -/
theorem syncLoop_noFail_ok (l : List JObj) :
    ∀ (k : Nat) (st : LoopState), ∃ st', syncLoop .noFail k st l = .ok st' := by
  induction l with
  | nil => intro k st; exact ⟨st, rfl⟩
  | cons item rest ih =>
    intro k st
    simp only [syncLoop, failsDetect_noFail, failsUpsert_noFail]
    rcases hs : detectChanges st.items st.clock item with _ | c <;> exact ih (k + 1) _

theorem findOne_append_left_none (l1 l2 : List CachedDoc) (v : Json)
    (h : ∀ d ∈ l1, idMatches d v = false) :
    findOne (l1 ++ l2) v = findOne l2 v := by
  induction l1 with
  | nil => rfl
  | cons d ds ih =>
    rw [List.cons_append, findOne_cons, if_neg (by simp [h d (by simp)])]
    exact ih (fun d' hd' => h d' (by simp [hd']))

/-- Whatever happens during a run, the change-snapshot collection only ever
grows by snapshots that are creates or updates. -/
theorem sync_changes_shape (s : CacheState) (l : List JObj) (f : FailAt) :
    ∃ cs, (syncFromSquare s l f).2.changes = s.changes ++ cs ∧
      ∀ c ∈ cs, c.change_type = "create" ∨ c.change_type = "update" := by
  cases f with
  | fetchStep m => exact ⟨[], by simp [syncFromSquare]⟩
  | noFail =>
    simp only [syncFromSquare]
    obtain ⟨cs, h1, _, _, h4⟩ := syncLoop_shape .noFail l 0
      { items := s.items, clock := s.clock + 1, changes := [], created := 0, updated := 0 }
    rcases hres : syncLoop .noFail 0
        { items := s.items, clock := s.clock + 1, changes := [], created := 0, updated := 0 } l
      with ⟨m, st⟩ | st
    · exact ⟨[], by simp, by simp⟩
    · rw [hres] at h1
      simp only [loopResultState] at h1
      simp only []
      exact ⟨cs, by simp [finishSync, h1], h4⟩
  | detectStep k m =>
    simp only [syncFromSquare]
    obtain ⟨cs, h1, _, _, h4⟩ := syncLoop_shape (.detectStep k m) l 0
      { items := s.items, clock := s.clock + 1, changes := [], created := 0, updated := 0 }
    rcases hres : syncLoop (.detectStep k m) 0
        { items := s.items, clock := s.clock + 1, changes := [], created := 0, updated := 0 } l
      with ⟨m', st⟩ | st
    · exact ⟨[], by simp, by simp⟩
    · rw [hres] at h1
      simp only [loopResultState] at h1
      simp only []
      exact ⟨cs, by simp [finishSync, h1], h4⟩
  | upsertStep k m =>
    simp only [syncFromSquare]
    obtain ⟨cs, h1, _, _, h4⟩ := syncLoop_shape (.upsertStep k m) l 0
      { items := s.items, clock := s.clock + 1, changes := [], created := 0, updated := 0 }
    rcases hres : syncLoop (.upsertStep k m) 0
        { items := s.items, clock := s.clock + 1, changes := [], created := 0, updated := 0 } l
      with ⟨m', st⟩ | st
    · exact ⟨[], by simp, by simp⟩
    · rw [hres] at h1
      simp only [loopResultState] at h1
      simp only []
      exact ⟨cs, by simp [finishSync, h1], h4⟩
  | insertChangesStep m =>
    simp only [syncFromSquare]
    obtain ⟨cs, h1, _, _, h4⟩ := syncLoop_shape (.insertChangesStep m) l 0
      { items := s.items, clock := s.clock + 1, changes := [], created := 0, updated := 0 }
    rcases hres : syncLoop (.insertChangesStep m) 0
        { items := s.items, clock := s.clock + 1, changes := [], created := 0, updated := 0 } l
      with ⟨m', st⟩ | st
    · exact ⟨[], by simp, by simp⟩
    · rw [hres] at h1
      simp only [loopResultState] at h1
      simp only []
      by_cases hemp : st.changes.isEmpty
      · have hcs : cs = [] := by
          have he := List.isEmpty_iff.mp hemp
          rw [he] at h1
          simpa using h1.symm
        exact ⟨cs, by simp [hemp, finishSync, h1, hcs], h4⟩
      · exact ⟨[], by simp [hemp], by simp⟩
  | insertLogStep m =>
    simp only [syncFromSquare]
    obtain ⟨cs, h1, _, _, h4⟩ := syncLoop_shape (.insertLogStep m) l 0
      { items := s.items, clock := s.clock + 1, changes := [], created := 0, updated := 0 }
    rcases hres : syncLoop (.insertLogStep m) 0
        { items := s.items, clock := s.clock + 1, changes := [], created := 0, updated := 0 } l
      with ⟨m', st⟩ | st
    · exact ⟨[], by simp, by simp⟩
    · rw [hres] at h1
      simp only [loopResultState] at h1
      simp only []
      exact ⟨cs, by simp [finishSync, h1], h4⟩

/-- **C9.** Change detection never classifies a record as a delete, and so
no run of the orchestrator ever appends a snapshot with
`change_type = "delete"` to the change log: a snapshot present after any
run either predates the run or is a create or an update. -/
theorem c9_never_delete :
    (∀ (items : List CachedDoc) (clock : Nat) (r : JObj) (c : ChangeSnapshot),
        detectChanges items clock r = some c → c.change_type ≠ "delete") ∧
    (∀ (s : CacheState) (l : List JObj) (f : FailAt) (c : ChangeSnapshot),
        c ∈ (syncFromSquare s l f).2.changes → c ∈ s.changes ∨ c.change_type ≠ "delete") := by
  constructor
  · intro items clock r c h
    rcases detect_change_type items clock r c h with ht | ht <;> simp [ht]
  · intro s l f c hc
    obtain ⟨cs, heq, hall⟩ := sync_changes_shape s l f
    rw [heq] at hc
    rcases List.mem_append.mp hc with hm | hm
    · exact Or.inl hm
    · right
      rcases hall c hm with ht | ht <;> simp [ht]

/-- Closed instance for C9: the create snapshot of a concrete record is not
a delete. -/
theorem c9_never_delete_witness :
    ((detectChanges ([] : List CachedDoc) 0 xWidget).getD
        { item_id := .null, item_name := .null, change_type := "", timestamp := 0 }).change_type
      ≠ "delete" :=
  c9_never_delete.1 [] 0 xWidget _ (by rfl)

/-- **C10.** With no name pattern, no SKU pattern and no extra filters,
`search_cached_items` builds the empty query document and returns every
cached record, in collection order. -/
theorem c10_search_returns_all (s : CacheState) :
    buildQuery none none [] = [] ∧ searchCachedItems s none none [] = s.items := by
  refine ⟨rfl, ?_⟩
  simp [searchCachedItems, buildQuery, truthyPattern, matchesDoc]

/-- **C6.** A record whose id has no cached document is classified as a
create: change type `create`, no before data, the incoming record as after
data, and `square_version_after` read from the record's `version` field. -/
theorem c6_create_detection (items : List CachedDoc) (clock : Nat) (r : JObj)
    (h : findOne items (idOf r) = none) :
    ∃ c, detectChanges items clock r = some c ∧
      c.change_type = "create" ∧
      c.before_data = none ∧
      c.after_data = some r ∧
      c.square_version_after = (lookupKey "version" r).getD .null :=
  ⟨_, detect_none_create items clock r h, rfl, rfl, rfl, rfl⟩

/-- Closed instance for C6 at a concrete record and empty cache. -/
theorem c6_create_detection_witness :
    ∃ c, detectChanges ([] : List CachedDoc) 7 xWidget = some c ∧
      c.change_type = "create" ∧
      c.before_data = none ∧
      c.after_data = some xWidget ∧
      c.square_version_after = (lookupKey "version" xWidget).getD .null :=
  c6_create_detection [] 7 xWidget (by rfl)

/-- **C2 counterexample.**  A run over an empty (unchanged) fetch completes
successfully and appends exactly one sync-log entry, but that entry has no
`status` key at all — in particular not `status = "success"` as the claim
states. -/
theorem c2_counterexample :
    (syncFromSquare emptyCache [] .noFail).2.syncLog.length = 1 ∧
    ((syncFromSquare emptyCache [] .noFail).2.syncLog.map (fun e => e.status)) = [none] := by
  decide

/-- **C2 (amended).**  A run that completes without an exception appends
exactly one SyncRun entry — the returned `sync_result` — whose fields are
`timestamp = start`, `total_items` = number of fetched records,
`created_count`/`updated_count` = number of create/update snapshots,
`changes_detected` = total number of snapshots, and a `duration_seconds`
value; the entry carries no `error` and, unlike the claim's wording, no
`status` key (no `status = "success"` is ever written). -/
theorem c2_success_entry (s : CacheState) (fetched : List JObj) :
    ∃ e cs, (syncFromSquare s fetched .noFail).1 = .ok e ∧
      (syncFromSquare s fetched .noFail).2.syncLog = s.syncLog ++ [e] ∧
      (syncFromSquare s fetched .noFail).2.changes = s.changes ++ cs ∧
      e.timestamp = s.clock ∧
      e.total_items = some fetched.length ∧
      e.created_count = some (countType "create" cs) ∧
      e.updated_count = some (countType "update" cs) ∧
      e.changes_detected = some cs.length ∧
      e.duration_seconds.isSome = true ∧
      e.error = none ∧
      e.status = none := by
  obtain ⟨st, hok⟩ := syncLoop_noFail_ok fetched 0
    { items := s.items, clock := s.clock + 1, changes := [], created := 0, updated := 0 }
  obtain ⟨cs, h1, h2, h3, _⟩ := syncLoop_shape .noFail fetched 0
    { items := s.items, clock := s.clock + 1, changes := [], created := 0, updated := 0 }
  rw [hok] at h1 h2 h3
  simp only [loopResultState] at h1 h2 h3
  simp only [syncFromSquare]
  rw [hok]
  simp only [finishSync]
  refine ⟨_, cs, rfl, rfl, ?_, rfl, rfl, ?_, ?_, ?_, rfl, rfl, rfl⟩
  · simp [h1]
  · simp [h2]
  · simp [h3]
  · simp [h1]

/-- **C1 counterexample.**  From an empty cache, syncing a fetch that
contains the same (pre-run-uncached) record twice produces only one
snapshot: the second occurrence is compared against the document upserted
moments earlier in the same run — even though, against the pre-run cache
state, detection of that record yields a (create) snapshot. -/
theorem c1_counterexample :
    ((syncFromSquare emptyCache [xWidget, xWidget] .noFail).2.changes.map
        (fun c => c.change_type)) = ["create"] ∧
    (detectChanges emptyCache.items emptyCache.clock xWidget).isSome = true := by
  decide

/-- **C1 (amended).**  Change detection runs against the live cache state,
which includes the upserts of earlier records of the same run: a fetch that
contains a pre-run-uncached record twice yields exactly one create snapshot;
the second occurrence matches the freshly upserted document hash-for-hash
and produces nothing. -/
theorem c1_live_detection (s : CacheState) (x : JObj)
    (h : findOne s.items (idOf x) = none) :
    ∃ e, (syncFromSquare s [x, x] .noFail).1 = .ok e ∧
      e.created_count = some 1 ∧ e.updated_count = some 0 ∧
      e.changes_detected = some 1 := by
  have hnon : ∀ d ∈ s.items, idMatches d (idOf x) = false := (findOne_eq_none_iff _ _).mp h
  have hd1 := detect_none_create s.items (s.clock + 1) x h
  have hrep : replaceOne s.items (idOf x)
      { item := x, content_hash := calculateHash x, cached_at := s.clock + 1 + 1 } =
      s.items ++ [{ item := x, content_hash := calculateHash x, cached_at := s.clock + 1 + 1 }] :=
    replaceOne_of_not_found _ _ _ hnon
  have hf2 : findOne
      (s.items ++ [{ item := x, content_hash := calculateHash x, cached_at := s.clock + 1 + 1 }])
      (idOf x) =
      some { item := x, content_hash := calculateHash x, cached_at := s.clock + 1 + 1 } := by
    rw [findOne_append_left_none _ _ _ hnon, findOne_cons, if_pos (idMatches_mk_self x _ _)]
  have hd2 := detect_found_same_hash _ (s.clock + 1 + 1 + 1) x _ hf2 rfl
  simp only [syncFromSquare, syncLoop, failsDetect_noFail, failsUpsert_noFail]
  simp only [hd1, hrep, hd2, finishSync]
  exact ⟨_, rfl, by simp, by simp, by simp⟩

/-- Closed instance for C1's amended statement at a concrete record. -/
theorem c1_live_detection_witness :
    ∃ e, (syncFromSquare emptyCache [xWidget, xWidget] .noFail).1 = .ok e ∧
      e.created_count = some 1 ∧ e.updated_count = some 0 ∧
      e.changes_detected = some 1 :=
  c1_live_detection emptyCache xWidget (by rfl)

theorem getNestedGoObj_eq_lookup (fs : JObj) (k : String) (rest : List String) :
    getNestedGoObj fs k rest =
      (match lookupKey k fs with
       | some v => getNestedGo v rest
       | none => .null) := by
  induction fs with
  | nil => rfl
  | cons p ps ih =>
    obtain ⟨k', v⟩ := p
    by_cases hk : k' = k <;> simp [getNestedGoObj, lookupKey, hk, ih]

/-- **C7.**  When the cached and incoming record have different content
hashes and differ (among the allowlisted paths) only at `item_data.name`,
the update snapshot's `differences` mapping holds exactly one entry, keyed
by that path, carrying the cached name as `before` and the incoming name as
`after`; and path resolution returns the `None` sentinel as soon as the
`item_data` segment is missing or the value at hand is not a dictionary. -/
theorem c7_update_diff_name_only :
    (∀ (items : List CachedDoc) (clock : Nat) (r : JObj) (cached : CachedDoc),
      findOne items (idOf r) = some cached →
      calculateHash r ≠ cached.content_hash →
      getNestedValue cached.item "item_data.name" ≠ getNestedValue r "item_data.name" →
      (∀ p ∈ compareFields, p ≠ "item_data.name" →
        getNestedValue cached.item p = getNestedValue r p) →
      ∃ c, detectChanges items clock r = some c ∧
        c.change_type = "update" ∧
        c.differences = some [("item_data.name",
          getNestedValue cached.item "item_data.name",
          getNestedValue r "item_data.name")]) ∧
    (∀ d : JObj, lookupKey "item_data" d = none →
      getNestedValue d "item_data.name" = .null) ∧
    (∀ (d : JObj) (s : String), lookupKey "item_data" d = some (.str s) →
      getNestedValue d "item_data.name" = .null) := by
  refine ⟨?_, ?_, ?_⟩
  · intro items clock r cached hfind hneq hbne hagree
    refine ⟨_, detect_found_ne_hash items clock r cached hfind hneq, rfl, ?_⟩
    have e2 := hagree "item_data.description" (by simp [compareFields]) (by decide)
    have e3 := hagree "item_data.image_ids" (by simp [compareFields]) (by decide)
    have e4 := hagree "item_data.variations" (by simp [compareFields]) (by decide)
    have e5 := hagree "item_data.categories" (by simp [compareFields]) (by decide)
    have e6 := hagree "version" (by simp [compareFields]) (by decide)
    have e7 := hagree "updated_at" (by simp [compareFields]) (by decide)
    simp [findDifferences, compareFields, e2, e3, e4, e5, e6, e7, hbne]
  · intro d hl
    unfold getNestedValue
    rw [show splitPath "item_data.name" = ["item_data", "name"] from rfl]
    show getNestedGoObj d "item_data" ["name"] = .null
    rw [getNestedGoObj_eq_lookup, hl]
  · intro d s hl
    unfold getNestedValue
    rw [show splitPath "item_data.name" = ["item_data", "name"] from rfl]
    show getNestedGoObj d "item_data" ["name"] = .null
    rw [getNestedGoObj_eq_lookup, hl]
    rfl

/-- Closed instance for C7 at a concrete cached document and incoming
record differing only in the item name. -/
theorem c7_update_diff_name_only_witness :
    ∃ c, detectChanges [oldNameDoc] 3 newNameItem = some c ∧
      c.change_type = "update" ∧
      c.differences = some [("item_data.name",
        getNestedValue oldNameDoc.item "item_data.name",
        getNestedValue newNameItem "item_data.name")] :=
  c7_update_diff_name_only.1 [oldNameDoc] 3 newNameItem oldNameDoc
    (by rfl) (by decide) (by decide) (by decide)

theorem finishSync_log_len (s : CacheState) (start : Nat) (st : LoopState) (total : Nat)
    (f : FailAt) :
    (finishSync s start st total f).2.syncLog.length = s.syncLog.length + 1 := by
  unfold finishSync
  cases f <;> simp

/-- A failure kind that never aborts a loop step runs the loop exactly as a
failure-free run does. -/
theorem syncLoop_eq_noFail (f : FailAt)
    (hf : ∀ j, failsDetect f j = none ∧ failsUpsert f j = none) :
    ∀ (l : List JObj) (k : Nat) (st : LoopState),
      syncLoop f k st l = syncLoop .noFail k st l := by
  intro l
  induction l with
  | nil => intro k st; rfl
  | cons item rest ih =>
    intro k st
    simp only [syncLoop, (hf k).1, (hf k).2, failsDetect_noFail, failsUpsert_noFail]
    rcases hs : detectChanges st.items st.clock item with _ | c <;> exact ih (k + 1) _

/-- An aborted loop leaves the collection exactly as the failure-free run
over some prefix of the fetch would: upserts already applied stay. -/
theorem syncLoop_error_prefix (f : FailAt) :
    ∀ (l : List JObj) (k : Nat) (st : LoopState) (m : String) (stE : LoopState),
      syncLoop f k st l = .error (m, stE) →
      ∃ j ≤ l.length, ∃ stO, syncLoop .noFail k st (l.take j) = .ok stO ∧
        stO.items = stE.items := by
  intro l
  induction l with
  | nil =>
    intro k st m stE herr
    exact absurd herr (by simp [syncLoop])
  | cons item rest ih =>
    intro k st m stE herr
    simp only [syncLoop] at herr
    rcases hd : failsDetect f k with _ | m0
    · rw [hd] at herr
      rcases hs : detectChanges st.items st.clock item with _ | c <;> rw [hs] at herr
      · rcases hu : failsUpsert f k with _ | m1 <;> rw [hu] at herr
        · obtain ⟨j, hj, stO, hO, hitems⟩ := ih (k + 1) _ m stE herr
          refine ⟨j + 1, by simpa using hj, stO, ?_, hitems⟩
          simp only [List.take_succ_cons, syncLoop, failsDetect_noFail, failsUpsert_noFail, hs]
          exact hO
        · simp only [Except.error.injEq, Prod.mk.injEq] at herr
          exact ⟨0, by simp, st, rfl, by rw [← herr.2]⟩
      · rcases hu : failsUpsert f k with _ | m1 <;> rw [hu] at herr
        · obtain ⟨j, hj, stO, hO, hitems⟩ := ih (k + 1) _ m stE herr
          refine ⟨j + 1, by simpa using hj, stO, ?_, hitems⟩
          simp only [List.take_succ_cons, syncLoop, failsDetect_noFail, failsUpsert_noFail, hs]
          exact hO
        · simp only [Except.error.injEq, Prod.mk.injEq] at herr
          exact ⟨0, by simp, st, rfl, by rw [← herr.2]⟩
    · rw [hd] at herr
      simp only [Except.error.injEq, Prod.mk.injEq] at herr
      exact ⟨0, by simp, st, rfl, by rw [← herr.2]⟩

theorem sync_noFail_run_items (s : CacheState) (l : List JObj) (st : LoopState)
    (hok : syncLoop .noFail 0
      { items := s.items, clock := s.clock + 1, changes := [], created := 0, updated := 0 } l
      = .ok st) :
    (syncFromSquare s l .noFail).2.items = st.items := by
  simp [syncFromSquare, hok, finishSync]

theorem sync_noFail_run_changes (s : CacheState) (l : List JObj) (st : LoopState)
    (hok : syncLoop .noFail 0
      { items := s.items, clock := s.clock + 1, changes := [], created := 0, updated := 0 } l
      = .ok st) :
    (syncFromSquare s l .noFail).2.changes = s.changes ++ st.changes := by
  simp [syncFromSquare, hok, finishSync]

/-- **C3.**  A run in which a step raises appends exactly one SyncRun —
`{timestamp = start, error = message, status = "failed"}` — and re-raises;
the cache keeps exactly the upserts of some prefix of the fetch (never
rolled back), the change log receives entries only when every record was
reached (the snapshots of a partially processed fetch are never persisted);
and every invocation, successful or failed, appends exactly one SyncRun. -/
theorem c3_failure_logging :
    (∀ (s : CacheState) (l : List JObj) (f : FailAt) (m : String),
      (syncFromSquare s l f).1 = .error m →
      (syncFromSquare s l f).2.syncLog = s.syncLog ++ [failedEntry s.clock m] ∧
      ∃ k ≤ l.length,
        (syncFromSquare s l f).2.items = (syncFromSquare s (l.take k) .noFail).2.items ∧
        ((syncFromSquare s l f).2.changes = s.changes ∨
          (k = l.length ∧
            (syncFromSquare s l f).2.changes = (syncFromSquare s l .noFail).2.changes))) ∧
    (∀ (s : CacheState) (l : List JObj) (f : FailAt),
      (syncFromSquare s l f).2.syncLog.length = s.syncLog.length + 1) := by
  constructor
  · intro s l f m herr
    cases f with
    | fetchStep m0 =>
      have hstate : syncFromSquare s l (.fetchStep m0) =
          (.error m0,
            { items := s.items, changes := s.changes,
              syncLog := s.syncLog ++ [failedEntry s.clock m0], clock := s.clock + 1 }) := rfl
      rw [hstate] at herr
      have hm : m0 = m := by simpa using herr
      subst hm
      rw [hstate]
      exact ⟨rfl, 0, by simp, rfl, Or.inl rfl⟩
    | noFail =>
      rcases hres : syncLoop .noFail 0
          { items := s.items, clock := s.clock + 1, changes := [], created := 0, updated := 0 } l
        with ⟨m', stE⟩ | st
      · have hstate : syncFromSquare s l .noFail =
            (.error m', { items := stE.items, changes := s.changes,
                          syncLog := s.syncLog ++ [failedEntry s.clock m'],
                          clock := stE.clock }) := by
          simp [syncFromSquare, hres]
        rw [hstate] at herr
        have hm : m' = m := by simpa using herr
        subst hm
        obtain ⟨j, hj, stO, hO, hitems⟩ := syncLoop_error_prefix _ l 0 _ _ _ hres
        rw [hstate]
        refine ⟨rfl, j, hj, ?_, Or.inl rfl⟩
        rw [sync_noFail_run_items s (l.take j) stO hO]
        exact hitems.symm
      · have hstate : syncFromSquare s l .noFail =
            finishSync s s.clock st l.length .noFail := by
          simp [syncFromSquare, hres]
        rw [hstate] at herr
        simp [finishSync] at herr
    | detectStep k0 m0 =>
      rcases hres : syncLoop (.detectStep k0 m0) 0
          { items := s.items, clock := s.clock + 1, changes := [], created := 0, updated := 0 } l
        with ⟨m', stE⟩ | st
      · have hstate : syncFromSquare s l (.detectStep k0 m0) =
            (.error m', { items := stE.items, changes := s.changes,
                          syncLog := s.syncLog ++ [failedEntry s.clock m'],
                          clock := stE.clock }) := by
          simp [syncFromSquare, hres]
        rw [hstate] at herr
        have hm : m' = m := by simpa using herr
        subst hm
        obtain ⟨j, hj, stO, hO, hitems⟩ := syncLoop_error_prefix _ l 0 _ _ _ hres
        rw [hstate]
        refine ⟨rfl, j, hj, ?_, Or.inl rfl⟩
        rw [sync_noFail_run_items s (l.take j) stO hO]
        exact hitems.symm
      · have hstate : syncFromSquare s l (.detectStep k0 m0) =
            finishSync s s.clock st l.length (.detectStep k0 m0) := by
          simp [syncFromSquare, hres]
        rw [hstate] at herr
        simp [finishSync] at herr
    | upsertStep k0 m0 =>
      rcases hres : syncLoop (.upsertStep k0 m0) 0
          { items := s.items, clock := s.clock + 1, changes := [], created := 0, updated := 0 } l
        with ⟨m', stE⟩ | st
      · have hstate : syncFromSquare s l (.upsertStep k0 m0) =
            (.error m', { items := stE.items, changes := s.changes,
                          syncLog := s.syncLog ++ [failedEntry s.clock m'],
                          clock := stE.clock }) := by
          simp [syncFromSquare, hres]
        rw [hstate] at herr
        have hm : m' = m := by simpa using herr
        subst hm
        obtain ⟨j, hj, stO, hO, hitems⟩ := syncLoop_error_prefix _ l 0 _ _ _ hres
        rw [hstate]
        refine ⟨rfl, j, hj, ?_, Or.inl rfl⟩
        rw [sync_noFail_run_items s (l.take j) stO hO]
        exact hitems.symm
      · have hstate : syncFromSquare s l (.upsertStep k0 m0) =
            finishSync s s.clock st l.length (.upsertStep k0 m0) := by
          simp [syncFromSquare, hres]
        rw [hstate] at herr
        simp [finishSync] at herr
    | insertChangesStep m0 =>
      rcases hres : syncLoop (.insertChangesStep m0) 0
          { items := s.items, clock := s.clock + 1, changes := [], created := 0, updated := 0 } l
        with ⟨m', stE⟩ | st
      · have hstate : syncFromSquare s l (.insertChangesStep m0) =
            (.error m', { items := stE.items, changes := s.changes,
                          syncLog := s.syncLog ++ [failedEntry s.clock m'],
                          clock := stE.clock }) := by
          simp [syncFromSquare, hres]
        rw [hstate] at herr
        have hm : m' = m := by simpa using herr
        subst hm
        obtain ⟨j, hj, stO, hO, hitems⟩ := syncLoop_error_prefix _ l 0 _ _ _ hres
        rw [hstate]
        refine ⟨rfl, j, hj, ?_, Or.inl rfl⟩
        rw [sync_noFail_run_items s (l.take j) stO hO]
        exact hitems.symm
      · have hloopN : syncLoop .noFail 0
            { items := s.items, clock := s.clock + 1, changes := [], created := 0, updated := 0 } l
            = .ok st := by
          rw [← syncLoop_eq_noFail (.insertChangesStep m0) (fun j => ⟨rfl, rfl⟩) l 0]
          exact hres
        by_cases hemp : st.changes.isEmpty
        · have hstate : syncFromSquare s l (.insertChangesStep m0) =
              finishSync s s.clock st l.length (.insertChangesStep m0) := by
            simp [syncFromSquare, hres, hemp]
          rw [hstate] at herr
          simp [finishSync] at herr
        · have hstate : syncFromSquare s l (.insertChangesStep m0) =
              (.error m0, { items := st.items, changes := s.changes,
                            syncLog := s.syncLog ++ [failedEntry s.clock m0],
                            clock := st.clock }) := by
            simp [syncFromSquare, hres, hemp]
          rw [hstate] at herr
          have hm : m0 = m := by simpa using herr
          subst hm
          rw [hstate]
          refine ⟨rfl, l.length, le_refl _, ?_, Or.inl rfl⟩
          rw [List.take_length, sync_noFail_run_items s l st hloopN]
    | insertLogStep m0 =>
      rcases hres : syncLoop (.insertLogStep m0) 0
          { items := s.items, clock := s.clock + 1, changes := [], created := 0, updated := 0 } l
        with ⟨m', stE⟩ | st
      · have hstate : syncFromSquare s l (.insertLogStep m0) =
            (.error m', { items := stE.items, changes := s.changes,
                          syncLog := s.syncLog ++ [failedEntry s.clock m'],
                          clock := stE.clock }) := by
          simp [syncFromSquare, hres]
        rw [hstate] at herr
        have hm : m' = m := by simpa using herr
        subst hm
        obtain ⟨j, hj, stO, hO, hitems⟩ := syncLoop_error_prefix _ l 0 _ _ _ hres
        rw [hstate]
        refine ⟨rfl, j, hj, ?_, Or.inl rfl⟩
        rw [sync_noFail_run_items s (l.take j) stO hO]
        exact hitems.symm
      · have hloopN : syncLoop .noFail 0
            { items := s.items, clock := s.clock + 1, changes := [], created := 0, updated := 0 } l
            = .ok st := by
          rw [← syncLoop_eq_noFail (.insertLogStep m0) (fun j => ⟨rfl, rfl⟩) l 0]
          exact hres
        have hstate : syncFromSquare s l (.insertLogStep m0) =
            (.error m0, { items := st.items, changes := s.changes ++ st.changes,
                          syncLog := s.syncLog ++ [failedEntry s.clock m0],
                          clock := st.clock + 1 }) := by
          simp [syncFromSquare, hres, finishSync]
        rw [hstate] at herr
        have hm : m0 = m := by simpa using herr
        subst hm
        rw [hstate]
        refine ⟨rfl, l.length, le_refl _, ?_, Or.inr ⟨rfl, ?_⟩⟩
        · rw [List.take_length, sync_noFail_run_items s l st hloopN]
        · rw [sync_noFail_run_changes s l st hloopN]
  · intro s l f
    cases f with
    | fetchStep m0 => simp [syncFromSquare]
    | noFail =>
      rcases hres : syncLoop .noFail 0
          { items := s.items, clock := s.clock + 1, changes := [], created := 0, updated := 0 } l
        with ⟨m', stE⟩ | st
      · simp [syncFromSquare, hres]
      · have hstate : syncFromSquare s l .noFail =
            finishSync s s.clock st l.length .noFail := by
          simp [syncFromSquare, hres]
        rw [hstate]
        exact finishSync_log_len s s.clock st l.length .noFail
    | detectStep k0 m0 =>
      rcases hres : syncLoop (.detectStep k0 m0) 0
          { items := s.items, clock := s.clock + 1, changes := [], created := 0, updated := 0 } l
        with ⟨m', stE⟩ | st
      · simp [syncFromSquare, hres]
      · have hstate : syncFromSquare s l (.detectStep k0 m0) =
            finishSync s s.clock st l.length (.detectStep k0 m0) := by
          simp [syncFromSquare, hres]
        rw [hstate]
        exact finishSync_log_len s s.clock st l.length _
    | upsertStep k0 m0 =>
      rcases hres : syncLoop (.upsertStep k0 m0) 0
          { items := s.items, clock := s.clock + 1, changes := [], created := 0, updated := 0 } l
        with ⟨m', stE⟩ | st
      · simp [syncFromSquare, hres]
      · have hstate : syncFromSquare s l (.upsertStep k0 m0) =
            finishSync s s.clock st l.length (.upsertStep k0 m0) := by
          simp [syncFromSquare, hres]
        rw [hstate]
        exact finishSync_log_len s s.clock st l.length _
    | insertChangesStep m0 =>
      rcases hres : syncLoop (.insertChangesStep m0) 0
          { items := s.items, clock := s.clock + 1, changes := [], created := 0, updated := 0 } l
        with ⟨m', stE⟩ | st
      · simp [syncFromSquare, hres]
      · by_cases hemp : st.changes.isEmpty
        · have hstate : syncFromSquare s l (.insertChangesStep m0) =
              finishSync s s.clock st l.length (.insertChangesStep m0) := by
            simp [syncFromSquare, hres, hemp]
          rw [hstate]
          exact finishSync_log_len s s.clock st l.length _
        · have hstate : syncFromSquare s l (.insertChangesStep m0) =
              (.error m0, { items := st.items, changes := s.changes,
                            syncLog := s.syncLog ++ [failedEntry s.clock m0],
                            clock := st.clock }) := by
            simp [syncFromSquare, hres, hemp]
          rw [hstate]
          simp
    | insertLogStep m0 =>
      rcases hres : syncLoop (.insertLogStep m0) 0
          { items := s.items, clock := s.clock + 1, changes := [], created := 0, updated := 0 } l
        with ⟨m', stE⟩ | st
      · simp [syncFromSquare, hres]
      · have hstate : syncFromSquare s l (.insertLogStep m0) =
            finishSync s s.clock st l.length (.insertLogStep m0) := by
          simp [syncFromSquare, hres]
        rw [hstate]
        exact finishSync_log_len s s.clock st l.length _

/-- Closed instance for C3 at a failing fetch over an empty cache. -/
theorem c3_failure_logging_witness :
    (syncFromSquare emptyCache [] (.fetchStep "boom")).2.syncLog =
        emptyCache.syncLog ++ [failedEntry emptyCache.clock "boom"] ∧
      ∃ k ≤ ([] : List JObj).length,
        (syncFromSquare emptyCache [] (.fetchStep "boom")).2.items =
          (syncFromSquare emptyCache (([] : List JObj).take k) .noFail).2.items ∧
        ((syncFromSquare emptyCache [] (.fetchStep "boom")).2.changes = emptyCache.changes ∨
          (k = ([] : List JObj).length ∧
            (syncFromSquare emptyCache [] (.fetchStep "boom")).2.changes =
              (syncFromSquare emptyCache [] .noFail).2.changes)) :=
  c3_failure_logging.1 emptyCache [] (.fetchStep "boom") "boom" (by rfl)

theorem charToNat_inj (a b : Char) (h : a.toNat = b.toNat) : a = b :=
  Char.ext (UInt32.ext h)

theorem string_data_inj (s t : String) (h : s.data = t.data) : s = t := by
  cases s
  cases t
  exact congrArg String.mk h

theorem charsLe_total : ∀ (a b : List Char), charsLe a b = true ∨ charsLe b a = true
  | [], _ => Or.inl rfl
  | _ :: _, [] => Or.inr rfl
  | a :: as, b :: bs => by
    by_cases hab : a = b
    · subst hab
      rcases charsLe_total as bs with h | h
      · left; simpa [charsLe] using h
      · right; simpa [charsLe] using h
    · have hba : ¬ b = a := fun e => hab e.symm
      rcases Nat.lt_trichotomy a.toNat b.toNat with hlt | heq | hgt
      · left; simp [charsLe, hab, hlt]
      · exact absurd (charToNat_inj a b heq) hab
      · right; simp [charsLe, hba, hgt]

theorem charsLe_trans : ∀ (a b c : List Char),
    charsLe a b = true → charsLe b c = true → charsLe a c = true
  | [], _, _, _, _ => rfl
  | _ :: _, [], _, h1, _ => by simp [charsLe] at h1
  | _ :: _, _ :: _, [], _, h2 => by simp [charsLe] at h2
  | a :: as, b :: bs, c :: cs, h1, h2 => by
    by_cases hab : a = b <;> by_cases hbc : b = c
    · subst hab; subst hbc
      simp [charsLe] at h1 h2 ⊢
      exact charsLe_trans as bs cs h1 h2
    · subst hab
      simp [charsLe, hbc] at h2 ⊢
      simp [hbc, h2]
    · subst hbc
      simp [charsLe, hab] at h1 ⊢
      simp [hab, h1]
    · simp [charsLe, hab] at h1
      simp [charsLe, hbc] at h2
      have hac : a.toNat < c.toNat := Nat.lt_trans h1 h2
      have hne : ¬ a = c := fun e => by
        rw [e] at h1
        omega
      simp [charsLe, hne, hac]

theorem charsLt_asymm : ∀ (a b : List Char),
    charsLt a b = true → charsLt b a = true → False
  | [], [], h1, _ => by simp [charsLt] at h1
  | [], _ :: _, _, h2 => by simp [charsLt] at h2
  | _ :: _, [], h1, _ => by simp [charsLt] at h1
  | a :: as, b :: bs, h1, h2 => by
    by_cases hab : a = b
    · subst hab
      simp [charsLt] at h1 h2
      exact charsLt_asymm as bs h1 h2
    · have hba : ¬ b = a := fun e => hab e.symm
      simp [charsLt, hab] at h1
      simp [charsLt, hba] at h2
      omega

theorem charsLt_of_le_of_ne : ∀ (a b : List Char),
    charsLe a b = true → a ≠ b → charsLt a b = true
  | [], [], _, hne => absurd rfl hne
  | [], _ :: _, _, _ => by simp [charsLt]
  | _ :: _, [], h, _ => by simp [charsLe] at h
  | a :: as, b :: bs, h, hne => by
    by_cases hab : a = b
    · subst hab
      have hne' : as ≠ bs := fun e => hne (by rw [e])
      simp [charsLe] at h
      simp [charsLt]
      exact charsLt_of_le_of_ne as bs h hne'
    · simp [charsLe, hab] at h
      simp [charsLt, hab]
      exact h

instance : IsTotal (String × Json) pairKeyLe :=
  ⟨fun p q => charsLe_total p.1.data q.1.data⟩

instance : IsTrans (String × Json) pairKeyLe :=
  ⟨fun _ _ _ => charsLe_trans _ _ _⟩

instance : IsAntisymm (String × Json) pairKeyLt :=
  ⟨fun _ _ h1 h2 => (charsLt_asymm _ _ h1 h2).elim⟩

theorem sortFields_sorted (fs : JObj) : List.Sorted pairKeyLe (sortFields fs) :=
  List.sorted_insertionSort pairKeyLe fs

theorem sortFields_perm (fs : JObj) : (sortFields fs).Perm fs :=
  List.perm_insertionSort pairKeyLe fs

theorem sorted_lt_of_sorted_le_nodup (l : JObj) (hs : List.Sorted pairKeyLe l)
    (hn : (l.map Prod.fst).Nodup) : List.Sorted pairKeyLt l := by
  have hne : List.Pairwise (fun p q : String × Json => p.1 ≠ q.1) l :=
    List.pairwise_map.mp hn
  refine List.Pairwise.imp ?_ (List.Pairwise.and hs hne)
  rintro p q ⟨hle, hnepq⟩
  exact charsLt_of_le_of_ne _ _ hle
    (fun e => hnepq (string_data_inj _ _ e))

theorem sortFields_eq_of_perm (fs gs : JObj) (hperm : fs.Perm gs)
    (hn : (fs.map Prod.fst).Nodup) : sortFields fs = sortFields gs := by
  have hnf : ((sortFields fs).map Prod.fst).Nodup :=
    (((sortFields_perm fs).map Prod.fst).nodup_iff).mpr hn
  have hng : ((sortFields gs).map Prod.fst).Nodup :=
    (((sortFields_perm gs).map Prod.fst).nodup_iff).mpr
      (((hperm.map Prod.fst).nodup_iff).mp hn)
  exact List.eq_of_perm_of_sorted
    ((sortFields_perm fs).trans (hperm.trans (sortFields_perm gs).symm))
    (sorted_lt_of_sorted_le_nodup _ (sortFields_sorted fs) hnf)
    (sorted_lt_of_sorted_le_nodup _ (sortFields_sorted gs) hng)

theorem sortKeysDeepFields_eq_map (fs : JObj) :
    sortKeysDeepFields fs = fs.map (fun kv => (kv.1, sortKeysDeep kv.2)) := by
  induction fs with
  | nil => rfl
  | cons p ps ih =>
    obtain ⟨k, v⟩ := p
    simp [sortKeysDeepFields, ih]

theorem strip_keys_nodup (a : JObj) (h : (a.map Prod.fst).Nodup) :
    ((stripVolatile a).map Prod.fst).Nodup :=
  ((List.filter_sublist a).map Prod.fst).nodup h

/-- **C5.**  Two payload dictionaries that agree after removing the
top-level `version`/`updated_at` keys hash identically; and only top-level
occurrences are stripped: two concrete payloads differing only in a nested
`version` field hash differently. -/
theorem c5_hash_strips_volatile :
    (∀ a b : JObj, (a.map Prod.fst).Nodup → (b.map Prod.fst).Nodup →
      (stripVolatile a).Perm (stripVolatile b) →
      calculateHash a = calculateHash b) ∧
    calculateHash nestedV1 ≠ calculateHash nestedV2 := by
  constructor
  · intro a b hna hnb hperm
    unfold calculateHash pyDumps
    congr 2
    simp only [sortKeysDeep]
    congr 1
    rw [sortKeysDeepFields_eq_map, sortKeysDeepFields_eq_map]
    apply sortFields_eq_of_perm
    · exact hperm.map _
    · rw [List.map_map]
      exact strip_keys_nodup a hna
  · decide

/-- Closed instance for C5: two payloads that differ only in the stripped
top-level fields hash equal. -/
theorem c5_hash_strips_volatile_witness :
    calculateHash hashPayloadA = calculateHash hashPayloadB :=
  c5_hash_strips_volatile.1 hashPayloadA hashPayloadB (by decide) (by decide) (by decide)

theorem evalPathObj_eq_lookup (fs : JObj) (k : String) (rest : List String) (c : QueryCond) :
    evalPathObj fs k rest c =
      (match lookupKey k fs with
       | some v => evalPath v rest c
       | none => condMissing c) := by
  induction fs with
  | nil => rfl
  | cons p ps ih =>
    obtain ⟨k', v⟩ := p
    by_cases hk : k' = k <;> simp [evalPathObj, lookupKey, hk, ih]

theorem condHolds_eqv_notArr (v w : Json) (h : notArr v = true) :
    condHolds (.eqv w) v = decide (v = w) := by
  cases v <;> simp_all [condHolds, notArr]

theorem evalPath_nil_cond (v : Json) (c : QueryCond) : evalPath v [] c = condHolds c v := by
  cases v <;> rfl

theorem idMatches_eq (d : CachedDoc) (v : Json) (h : notArr (effId d) = true) :
    idMatches d v = decide (effId d = v) := by
  unfold idMatches
  show evalPathObj d.item "id" [] (.eqv v) = decide (effId d = v)
  rw [evalPathObj_eq_lookup]
  unfold effId at h ⊢
  cases hx : lookupKey "id" d.item with
  | none =>
    simp only [hx, Option.getD_none]
    cases v <;> simp [condMissing]
  | some w =>
    rw [hx] at h
    simp only [hx, Option.getD_some]
    rw [evalPath_nil_cond]
    exact condHolds_eqv_notArr w v h

theorem mem_replaceOne (items : List CachedDoc) (v : Json) (doc d' : CachedDoc)
    (h : d' ∈ replaceOne items v doc) : d' = doc ∨ d' ∈ items := by
  induction items with
  | nil => simpa [replaceOne] using h
  | cons d ds ih =>
    unfold replaceOne at h
    by_cases hm : idMatches d v
    · rw [if_pos hm] at h
      rcases List.mem_cons.mp h with he | he
      · exact Or.inl he
      · exact Or.inr (List.mem_cons_of_mem d he)
    · rw [if_neg hm] at h
      rcases List.mem_cons.mp h with he | he
      · exact Or.inr (he ▸ List.mem_cons_self d ds)
      · rcases ih he with h1 | h1
        · exact Or.inl h1
        · exact Or.inr (List.mem_cons_of_mem d h1)

theorem scalarIds_replaceOne (items : List CachedDoc) (v : Json) (doc : CachedDoc)
    (hinv : scalarIds items) (hdoc : notArr (effId doc) = true) :
    scalarIds (replaceOne items v doc) := by
  intro d' hd'
  rcases mem_replaceOne items v doc d' hd' with he | he
  · rw [he]; exact hdoc
  · exact hinv d' he

/-- Replacing by a scalar id behaves on `find_one` like a pointwise map
update. -/
theorem findOne_replaceOne (items : List CachedDoc) (v : Json) (doc : CachedDoc) (w : Json)
    (hinv : scalarIds items) (hdoc : effId doc = v) (hv : notArr v = true) :
    findOne (replaceOne items v doc) w = if v = w then some doc else findOne items w := by
  have hdm : ∀ u, idMatches doc u = decide (v = u) := by
    intro u
    rw [idMatches_eq doc u (by rw [hdoc]; exact hv), hdoc]
  induction items with
  | nil =>
    unfold replaceOne
    rw [findOne_cons, hdm w]
    by_cases hvw : v = w <;> simp [hvw, findOne]
  | cons d ds ih =>
    have hdscalar : notArr (effId d) = true := hinv d (List.mem_cons_self d ds)
    have hinv' : scalarIds ds := fun d' hd' => hinv d' (List.mem_cons_of_mem d hd')
    unfold replaceOne
    by_cases hm : idMatches d v
    · rw [if_pos hm, findOne_cons, hdm w, findOne_cons]
      have hdv : effId d = v := by
        have := idMatches_eq d v hdscalar
        rw [hm] at this
        exact of_decide_eq_true this.symm
      by_cases hvw : v = w
      · simp [hvw]
      · have h0 : idMatches d w = false := by
          rw [idMatches_eq d w hdscalar, hdv]
          simpa using hvw
        simp [hvw, h0]
    · rw [if_neg hm]
      simp only [findOne_cons, ih hinv']
      by_cases hvw : v = w
      · subst hvw
        have h0 : idMatches d v = false := by simpa using hm
        simp [h0]
      · simp [hvw]

/-- `findOne_replaceOne` specialized to the document `sync_from_square`
builds from a record. -/
theorem findOne_replaceOne_mk (items : List CachedDoc) (x : JObj) (hsh : String) (t : Nat)
    (w : Json) (hinv : scalarIds items) (hx : notArr (idOf x) = true) :
    findOne (replaceOne items (idOf x) { item := x, content_hash := hsh, cached_at := t }) w =
      if idOf x = w then some { item := x, content_hash := hsh, cached_at := t }
      else findOne items w :=
  findOne_replaceOne items (idOf x) _ w hinv rfl hx

/-- A failure-free loop pass leaves documents with ids outside the fetch
untouched, and preserves the scalar-id invariant. -/
theorem syncLoop_preserves_other (l : List JObj) :
    ∀ (k : Nat) (st : LoopState) (st' : LoopState) (w : Json),
      syncLoop .noFail k st l = .ok st' →
      scalarIds st.items →
      (∀ z ∈ l, notArr (idOf z) = true) →
      (∀ z ∈ l, idOf z ≠ w) →
      findOne st'.items w = findOne st.items w ∧ scalarIds st'.items := by
  induction l with
  | nil =>
    intro k st st' w hok hscal _ _
    cases hok
    exact ⟨rfl, hscal⟩
  | cons item rest ih =>
    intro k st st' w hok hscal hids hne
    simp only [syncLoop, failsDetect_noFail, failsUpsert_noFail] at hok
    have hitemscalar : notArr (idOf item) = true := hids item (List.mem_cons_self _ _)
    rcases hs : detectChanges st.items st.clock item with _ | c <;> rw [hs] at hok
    all_goals
      obtain ⟨hfind, hscal'⟩ := ih (k + 1) _ st' w hok
        (scalarIds_replaceOne _ _ _ hscal hitemscalar)
        (fun z hz => hids z (List.mem_cons_of_mem _ hz))
        (fun z hz => hne z (List.mem_cons_of_mem _ hz))
    all_goals
      refine ⟨?_, hscal'⟩
    all_goals
      rw [hfind]
    all_goals
      simp only
    all_goals
      rw [findOne_replaceOne_mk _ _ _ _ _ hscal hitemscalar,
        if_neg (hne item (List.mem_cons_self _ _))]

/-- After a failure-free pass, every fetched record's id resolves to a
document carrying that record's content hash (given records sharing an id
share a hash), and the scalar-id invariant is preserved. -/
theorem syncLoop_establishes_hash (l : List JObj) :
    ∀ (k : Nat) (st : LoopState) (st' : LoopState),
      syncLoop .noFail k st l = .ok st' →
      (∀ x ∈ l, ∀ y ∈ l, idOf x = idOf y → calculateHash x = calculateHash y) →
      (∀ x ∈ l, notArr (idOf x) = true) →
      scalarIds st.items →
      (∀ x ∈ l, ∃ d, findOne st'.items (idOf x) = some d ∧
        d.content_hash = calculateHash x) ∧ scalarIds st'.items := by
  induction l with
  | nil =>
    intro k st st' hok _ _ hscal
    cases hok
    exact ⟨by simp, hscal⟩
  | cons item rest ih =>
    intro k st st' hok hh hids hscal
    simp only [syncLoop, failsDetect_noFail, failsUpsert_noFail] at hok
    have hitemscalar : notArr (idOf item) = true := hids item (List.mem_cons_self _ _)
    have hh' : ∀ x ∈ rest, ∀ y ∈ rest, idOf x = idOf y → calculateHash x = calculateHash y :=
      fun x hx y hy => hh x (List.mem_cons_of_mem _ hx) y (List.mem_cons_of_mem _ hy)
    have hids' : ∀ x ∈ rest, notArr (idOf x) = true :=
      fun x hx => hids x (List.mem_cons_of_mem _ hx)
    have key : ∀ (t : Nat) (stN : LoopState),
        syncLoop .noFail (k + 1) stN rest = .ok st' →
        stN.items = replaceOne st.items (idOf item)
          { item := item, content_hash := calculateHash item, cached_at := t } →
        (∀ x ∈ item :: rest, ∃ d, findOne st'.items (idOf x) = some d ∧
          d.content_hash = calculateHash x) ∧ scalarIds st'.items := by
      intro t stN hok2 hitems
      have hscalN : scalarIds stN.items := by
        rw [hitems]
        exact scalarIds_replaceOne _ _ _ hscal hitemscalar
      obtain ⟨hrest, hscal'⟩ := ih (k + 1) stN st' hok2 hh' hids' hscalN
      refine ⟨?_, hscal'⟩
      intro x hx
      rcases List.mem_cons.mp hx with rfl | he
      · by_cases hz : ∃ z ∈ rest, idOf z = idOf x
        · obtain ⟨z, hzmem, hzid⟩ := hz
          obtain ⟨d, hd1, hd2⟩ := hrest z hzmem
          refine ⟨d, by rw [← hzid]; exact hd1, ?_⟩
          rw [hd2]
          exact hh z (List.mem_cons_of_mem _ hzmem) x (List.mem_cons_self _ _) hzid
        · push_neg at hz
          obtain ⟨hfind, _⟩ := syncLoop_preserves_other rest (k + 1) stN st' (idOf x) hok2
            hscalN hids' hz
          refine ⟨{ item := x, content_hash := calculateHash x, cached_at := t }, ?_, rfl⟩
          rw [hfind, hitems]
          rw [findOne_replaceOne_mk _ _ _ _ _ hscal hitemscalar, if_pos rfl]
      · exact hrest x he
    rcases hs : detectChanges st.items st.clock item with _ | c <;> rw [hs] at hok
    · exact key st.clock _ hok rfl
    · exact key (st.clock + 1) _ hok rfl

/-- A failure-free pass over records whose ids already resolve to documents
with matching hashes detects nothing: no snapshots, no count increments. -/
theorem syncLoop_no_change (l : List JObj) :
    ∀ (k : Nat) (st : LoopState),
      scalarIds st.items →
      (∀ x ∈ l, notArr (idOf x) = true) →
      (∀ x ∈ l, ∃ d, findOne st.items (idOf x) = some d ∧
        d.content_hash = calculateHash x) →
      ∃ st', syncLoop .noFail k st l = .ok st' ∧ st'.changes = st.changes ∧
        st'.created = st.created ∧ st'.updated = st.updated := by
  induction l with
  | nil =>
    intro k st _ _ _
    exact ⟨st, rfl, rfl, rfl, rfl⟩
  | cons item rest ih =>
    intro k st hscal hids hinv
    have hitemscalar : notArr (idOf item) = true := hids item (List.mem_cons_self _ _)
    obtain ⟨d, hd1, hd2⟩ := hinv item (List.mem_cons_self _ _)
    have hdet : detectChanges st.items st.clock item = none :=
      detect_found_same_hash st.items st.clock item d hd1 hd2
    have hscal1 : scalarIds (replaceOne st.items (idOf item)
        { item := item, content_hash := calculateHash item, cached_at := st.clock }) :=
      scalarIds_replaceOne _ _ _ hscal hitemscalar
    have hinv1 : ∀ x ∈ rest, ∃ d', findOne (replaceOne st.items (idOf item)
        { item := item, content_hash := calculateHash item, cached_at := st.clock })
        (idOf x) = some d' ∧ d'.content_hash = calculateHash x := by
      intro x hx
      rw [findOne_replaceOne_mk _ _ _ _ _ hscal hitemscalar]
      by_cases hxid : idOf item = idOf x
      · rw [if_pos hxid]
        refine ⟨_, rfl, ?_⟩
        obtain ⟨dx, hdx1, hdx2⟩ := hinv x (List.mem_cons_of_mem _ hx)
        rw [← hxid, hd1] at hdx1
        have hddx : d = dx := by injection hdx1
        show calculateHash item = calculateHash x
        rw [← hd2, hddx, hdx2]
      · rw [if_neg hxid]
        exact hinv x (List.mem_cons_of_mem _ hx)
    obtain ⟨st', hok', hch, hcr, hup⟩ := ih (k + 1)
      { items := replaceOne st.items (idOf item)
          { item := item, content_hash := calculateHash item, cached_at := st.clock },
        clock := st.clock + 1, changes := st.changes,
        created := st.created, updated := st.updated }
      hscal1 (fun x hx => hids x (List.mem_cons_of_mem _ hx)) hinv1
    refine ⟨st', ?_, ?_, ?_, ?_⟩
    · simp only [syncLoop, failsDetect_noFail, failsUpsert_noFail, hdet]
      exact hok'
    · simpa using hch
    · simpa using hcr
    · simpa using hup

/-- **C4 counterexample.**  With a fetch that carries the same id twice
with different content, the second of two back-to-back syncs still detects
two changes: `changes_detected = 2`, not `0`, on the second run. -/
theorem c4_counterexample :
    ((syncFromSquare (syncFromSquare emptyCache [xP, yQ] .noFail).2 [xP, yQ] .noFail).1.toOption.map
        (fun e => e.changes_detected)) = some (some 2) := by
  decide

/-- **C4 (amended).**  Running `sync_from_square` twice with the upstream
records unchanged yields a second run with `changes_detected = 0`,
`created_count = 0`, `updated_count = 0` and an untouched change log —
provided no two fetched records share an id with different content hash,
and ids (of the fetched records and of the pre-existing cache documents)
are not arrays. -/
theorem c4_idempotent_resync (s : CacheState) (l : List JObj)
    (hh : ∀ x ∈ l, ∀ y ∈ l, idOf x = idOf y → calculateHash x = calculateHash y)
    (hids : ∀ x ∈ l, notArr (idOf x) = true)
    (hscal : scalarIds s.items) :
    ∃ e, (syncFromSquare (syncFromSquare s l .noFail).2 l .noFail).1 = .ok e ∧
      e.changes_detected = some 0 ∧ e.created_count = some 0 ∧ e.updated_count = some 0 ∧
      (syncFromSquare (syncFromSquare s l .noFail).2 l .noFail).2.changes =
        (syncFromSquare s l .noFail).2.changes := by
  obtain ⟨st1, hok1⟩ := syncLoop_noFail_ok l 0
    { items := s.items, clock := s.clock + 1, changes := [], created := 0, updated := 0 }
  obtain ⟨hInv1, hScal1⟩ := syncLoop_establishes_hash l 0 _ st1 hok1 hh hids hscal
  set S := (syncFromSquare s l .noFail).2 with hS
  have hSitems : S.items = st1.items := by
    rw [hS]
    exact sync_noFail_run_items s l st1 hok1
  obtain ⟨st2, hok2, hch, hcr, hup⟩ := syncLoop_no_change l 0
    { items := S.items, clock := S.clock + 1, changes := [], created := 0, updated := 0 }
    (by show scalarIds S.items
        rw [hSitems]
        exact hScal1)
    hids
    (by intro x hx
        show ∃ d, findOne S.items (idOf x) = some d ∧ d.content_hash = calculateHash x
        rw [hSitems]
        exact hInv1 x hx)
  have hstate : syncFromSquare S l .noFail = finishSync S S.clock st2 l.length .noFail := by
    simp [syncFromSquare, hok2]
  rw [hstate]
  simp only [finishSync]
  simp only at hch hcr hup
  refine ⟨_, rfl, ?_, ?_, ?_, ?_⟩
  · simp [hch]
  · simp [hcr]
  · simp [hup]
  · simp [hch]

/-- Closed instance for C4's amended statement: resyncing one record. -/
theorem c4_idempotent_resync_witness :
    ∃ e, (syncFromSquare (syncFromSquare emptyCache [xWidget] .noFail).2
        [xWidget] .noFail).1 = .ok e ∧
      e.changes_detected = some 0 ∧ e.created_count = some 0 ∧ e.updated_count = some 0 ∧
      (syncFromSquare (syncFromSquare emptyCache [xWidget] .noFail).2 [xWidget] .noFail).2.changes =
        (syncFromSquare emptyCache [xWidget] .noFail).2.changes :=
  c4_idempotent_resync emptyCache [xWidget] (by decide) (by decide)
    (fun d hd => absurd hd (List.not_mem_nil d))

theorem listAny_congr {α : Type} {p q : α → Bool} :
    ∀ {l : List α}, (∀ x ∈ l, p x = q x) → l.any p = l.any q
  | [], _ => rfl
  | x :: xs, h => by
    simp only [List.any_cons]
    rw [h x (List.mem_cons_self _ _), listAny_congr (fun y hy => h y (List.mem_cons_of_mem _ hy))]

theorem evalPathArr_eq_any (xs : List Json) (ks : List String) (c : QueryCond) :
    evalPathArr xs ks c = xs.any (fun x => evalPath x ks c) := by
  induction xs with
  | nil => rfl
  | cons x rest ih => simp [evalPathArr, ih]

/-- On well-formed documents the Mongo path `item_data.name` under a
case-insensitive regex is exactly the specification's name predicate. -/
theorem evalPath_name_eq_spec (d : CachedDoc) (p : String) (hwf : wfDoc d = true) :
    evalPath (.obj d.item) ["item_data", "name"] (.regexi p) = specNameMatches p d := by
  unfold wfDoc at hwf
  unfold specNameMatches specItemName
  show evalPathObj d.item "item_data" ["name"] (.regexi p) = _
  rw [evalPathObj_eq_lookup]
  cases h1 : lookupKey "item_data" d.item with
  | none => simp [condMissing, h1]
  | some v =>
    simp only [h1] at hwf
    cases v with
    | obj o =>
      show evalPathObj o "name" [] (.regexi p) = _
      rw [evalPathObj_eq_lookup]
      cases h2 : lookupKey "name" o with
      | none => simp [condMissing, h2]
      | some w =>
        simp only [h2] at hwf
        have hw : notArr w = true := by
          cases hnw : notArr w
          · rw [hnw] at hwf
            simp at hwf
          · rfl
        cases w <;> simp_all [evalPath_nil_cond, condHolds, notArr]
    | arr xs => simp at hwf
    | null => simp [evalPath, condMissing, h1]
    | jbool b => simp [evalPath, condMissing, h1]
    | num n => simp [evalPath, condMissing, h1]
    | str st => simp [evalPath, condMissing, h1]

/-- On a well-formed variation entry, the Mongo tail path
`item_variation_data.sku` under a case-insensitive regex tests exactly
"this variation's SKU matches". -/
theorem evalPath_variation_eq_spec (v : Json) (p : String) (hwf : wfVariation v = true) :
    evalPath v ["item_variation_data", "sku"] (.regexi p) = variationSkuMatches p v := by
  unfold wfVariation at hwf
  unfold variationSkuMatches
  cases v with
  | obj vo =>
    show evalPathObj vo "item_variation_data" ["sku"] (.regexi p) = _
    rw [evalPathObj_eq_lookup]
    cases h1 : lookupKey "item_variation_data" vo with
    | none => simp [condMissing, h1]
    | some w =>
      simp only [h1] at hwf
      cases w with
      | obj ivd =>
        show evalPathObj ivd "sku" [] (.regexi p) = _
        rw [evalPathObj_eq_lookup]
        cases h2 : lookupKey "sku" ivd with
        | none => simp [condMissing, h1, h2]
        | some u =>
          simp only [h2] at hwf
          cases u <;> simp_all [evalPath_nil_cond, condHolds, notArr]
      | arr xs => simp [notArr] at hwf
      | null => simp [evalPath, condMissing, h1]
      | jbool b => simp [evalPath, condMissing, h1]
      | num n => simp [evalPath, condMissing, h1]
      | str st => simp [evalPath, condMissing, h1]
  | arr xs => simp at hwf
  | null => simp [evalPath, condMissing]
  | jbool b => simp [evalPath, condMissing]
  | num n => simp [evalPath, condMissing]
  | str st => simp [evalPath, condMissing]

/-- On well-formed documents the four-segment Mongo SKU path distributes
over the variations array: it is the specification's predicate read with
"any variation" in place of "first variation". -/
theorem evalPath_sku_eq_spec (d : CachedDoc) (p : String) (hwf : wfDoc d = true) :
    evalPath (.obj d.item) ["item_data", "variations", "item_variation_data", "sku"]
      (.regexi p) = specAnySkuMatches p d := by
  have hwf0 := hwf
  unfold wfDoc at hwf
  unfold specAnySkuMatches
  show evalPathObj d.item "item_data" ["variations", "item_variation_data", "sku"]
    (.regexi p) = _
  rw [evalPathObj_eq_lookup]
  cases h1 : lookupKey "item_data" d.item with
  | none => simp [condMissing, h1]
  | some v =>
    simp only [h1] at hwf
    cases v with
    | obj o =>
      show evalPathObj o "variations" ["item_variation_data", "sku"] (.regexi p) = _
      rw [evalPathObj_eq_lookup]
      cases h2 : lookupKey "variations" o with
      | none => simp [condMissing, h1, h2]
      | some w =>
        simp only [h2] at hwf
        cases w with
        | arr vs =>
          have hvar : vs.all wfVariation = true := by
            cases hv2 : vs.all wfVariation
            · simp [hv2] at hwf
            · rfl
          show evalPathArr vs ["item_variation_data", "sku"] (.regexi p) = _
          rw [evalPathArr_eq_any]
          simp only [h1, h2]
          apply listAny_congr
          intro v hv
          exact evalPath_variation_eq_spec v p (List.all_eq_true.mp hvar v hv)
        | obj vo => simp at hwf
        | null => simp [evalPath, condMissing, h1, h2]
        | jbool b => simp [evalPath, condMissing, h1, h2]
        | num n => simp [evalPath, condMissing, h1, h2]
        | str st => simp [evalPath, condMissing, h1, h2]
    | arr xs => simp at hwf
    | null => simp [evalPath, condMissing]
    | jbool b => simp [evalPath, condMissing]
    | num n => simp [evalPath, condMissing]
    | str st => simp [evalPath, condMissing]

theorem setQueryKey_fresh (q : List (String × QueryVal)) (k : String) (v : QueryVal)
    (h : k ∉ q.map Prod.fst) : setQueryKey q k v = q ++ [(k, v)] := by
  induction q with
  | nil => rfl
  | cons p ps ih =>
    obtain ⟨k', v'⟩ := p
    simp only [List.map_cons, List.mem_cons] at h
    push_neg at h
    simp only [setQueryKey]
    rw [if_neg (fun e => h.1 e.symm), ih h.2]
    simp

theorem foldl_setQueryKey (fs : JObj) :
    ∀ (q : List (String × QueryVal)),
      (∀ kv ∈ fs, kv.1 ∉ q.map Prod.fst) → (fs.map Prod.fst).Nodup →
      fs.foldl (fun q kv => setQueryKey q kv.1 (.cond (.eqv kv.2))) q =
        q ++ fs.map (fun kv => (kv.1, QueryVal.cond (.eqv kv.2))) := by
  induction fs with
  | nil => intro q _ _; simp
  | cons kv fs ih =>
    intro q hfresh hn
    obtain ⟨k, v⟩ := kv
    simp only [List.foldl_cons]
    rw [setQueryKey_fresh q k _ (hfresh (k, v) (List.mem_cons_self _ _))]
    have hfresh' : ∀ kv' ∈ fs,
        kv'.1 ∉ (q ++ [(k, QueryVal.cond (QueryCond.eqv v))]).map Prod.fst := by
      intro kv' hkv'
      simp only [List.map_append, List.mem_append]
      push_neg
      refine ⟨hfresh kv' (List.mem_cons_of_mem _ hkv'), ?_⟩
      simp only [List.map_cons, List.map_nil, List.mem_singleton]
      intro he
      simp only [List.map_cons, List.nodup_cons] at hn
      exact hn.1 (he ▸ List.mem_map_of_mem Prod.fst hkv')
    have hn' : (fs.map Prod.fst).Nodup := by
      simp only [List.map_cons, List.nodup_cons] at hn
      exact hn.2
    rw [ih _ hfresh' hn']
    simp

theorem buildQuery_filters_append (np sp : Option String) (fs : JObj)
    (hn : (fs.map Prod.fst).Nodup)
    (hfresh : ∀ kv ∈ fs, kv.1 ∉ (buildQuery np sp []).map Prod.fst) :
    buildQuery np sp fs =
      buildQuery np sp [] ++ fs.map (fun kv => (kv.1, QueryVal.cond (.eqv kv.2))) := by
  unfold buildQuery
  exact foldl_setQueryKey fs _ hfresh hn

theorem matchesDoc_filterConds (fs : JObj) (d : JObj) :
    matchesDoc (fs.map (fun kv => (kv.1, QueryVal.cond (.eqv kv.2)))) d =
      fs.all (fun kv => evalPath (.obj d) (splitPath kv.1) (.eqv kv.2)) := by
  induction fs with
  | nil => rfl
  | cons kv fs ih =>
    have step : matchesDoc ((kv.1, QueryVal.cond (QueryCond.eqv kv.2)) ::
        fs.map (fun kv => (kv.1, QueryVal.cond (QueryCond.eqv kv.2)))) d =
        (evalPath (.obj d) (splitPath kv.1) (.eqv kv.2) &&
          matchesDoc (fs.map (fun kv => (kv.1, QueryVal.cond (QueryCond.eqv kv.2)))) d) := rfl
    rw [List.map_cons, step, ih, List.all_cons]

/-- **C8 counterexample.**  Searching by SKU matches any variation's SKU,
not the first variation's: a cached item whose first variation carries SKU
`AAA` and second `BBB` is returned by `search(sku_pattern="bbb")` although
its first-variation SKU does not match. -/
theorem c8_counterexample :
    searchCachedItems twoVarState none (some "bbb") [] = [twoVarDoc] ∧
    firstVariationSku twoVarDoc = some "AAA" ∧
    regexIMatch "bbb" "AAA" = false := by
  decide

/-- **C8 (amended).**  On well-formed catalog documents and truthy,
metacharacter-free patterns: a name-only search returns exactly the records
whose item name matches case-insensitively; a SKU-only search returns
exactly the records in which **some variation's** SKU matches (not only the
first variation's); with both patterns, the match is the logical OR of the
two; extra filters are ANDed as exact-match constraints on fresh keys; and
in the concrete scenario, a cache with "Blue Mug" and "Red Cup" answers
`search(name_pattern="mug")` with exactly the Blue Mug record. -/
theorem c8_search_semantics :
    (∀ (s : CacheState) (p : String), p ≠ "" → (∀ d ∈ s.items, wfDoc d = true) →
      searchCachedItems s (some p) none [] = s.items.filter (specNameMatches p)) ∧
    (∀ (s : CacheState) (p : String), p ≠ "" → (∀ d ∈ s.items, wfDoc d = true) →
      searchCachedItems s none (some p) [] = s.items.filter (specAnySkuMatches p)) ∧
    (∀ (s : CacheState) (np sp : String), np ≠ "" → sp ≠ "" →
      (∀ d ∈ s.items, wfDoc d = true) →
      searchCachedItems s (some np) (some sp) [] =
        s.items.filter (fun d => specNameMatches np d || specAnySkuMatches sp d)) ∧
    (∀ (s : CacheState) (np sp : Option String) (fs : JObj),
      (fs.map Prod.fst).Nodup →
      (∀ kv ∈ fs, kv.1 ≠ "$or" ∧ kv.1 ≠ namePathKey ∧ kv.1 ≠ skuPathKey) →
      searchCachedItems s np sp fs = (searchCachedItems s np sp []).filter
        (fun d => fs.all (fun kv => evalPath (.obj d.item) (splitPath kv.1) (.eqv kv.2)))) ∧
    searchCachedItems mugCupState (some "mug") none [] = [blueMugDoc] := by
  refine ⟨?_, ?_, ?_, ?_, by decide⟩
  · intro s p hp hwf
    unfold searchCachedItems
    have hq : buildQuery (some p) none [] = [(namePathKey, QueryVal.cond (.regexi p))] := by
      simp [buildQuery, truthyPattern, hp]
    rw [hq]
    apply List.filter_congr
    intro d hd
    show matchesDoc _ d.item = specNameMatches p d
    simp only [matchesDoc, List.all_cons, List.all_nil, Bool.and_true]
    rw [show splitPath namePathKey = ["item_data", "name"] from rfl]
    exact evalPath_name_eq_spec d p (hwf d hd)
  · intro s p hp hwf
    unfold searchCachedItems
    have hq : buildQuery none (some p) [] = [(skuPathKey, QueryVal.cond (.regexi p))] := by
      simp [buildQuery, truthyPattern, hp]
    rw [hq]
    apply List.filter_congr
    intro d hd
    show matchesDoc _ d.item = specAnySkuMatches p d
    simp only [matchesDoc, List.all_cons, List.all_nil, Bool.and_true]
    rw [show splitPath skuPathKey =
      ["item_data", "variations", "item_variation_data", "sku"] from rfl]
    exact evalPath_sku_eq_spec d p (hwf d hd)
  · intro s np sp hnp hsp hwf
    unfold searchCachedItems
    have hq : buildQuery (some np) (some sp) [] =
        [("$or", QueryVal.orClauses
          [(namePathKey, .regexi np), (skuPathKey, .regexi sp)])] := by
      simp [buildQuery, truthyPattern, hnp, hsp]
    rw [hq]
    apply List.filter_congr
    intro d hd
    show matchesDoc _ d.item = _
    simp only [matchesDoc, List.all_cons, List.all_nil, Bool.and_true,
      List.any_cons, List.any_nil, Bool.or_false]
    rw [show splitPath namePathKey = ["item_data", "name"] from rfl,
      show splitPath skuPathKey =
        ["item_data", "variations", "item_variation_data", "sku"] from rfl,
      evalPath_name_eq_spec d np (hwf d hd), evalPath_sku_eq_spec d sp (hwf d hd)]
  · intro s np sp fs hn hfresh
    unfold searchCachedItems
    have hbasekeys : ∀ k, k ∈ (buildQuery np sp []).map Prod.fst →
        k = "$or" ∨ k = namePathKey ∨ k = skuPathKey := by
      intro k hk
      by_cases h1 : truthyPattern np <;> by_cases h2 : truthyPattern sp <;>
        simp [buildQuery, h1, h2] at hk <;> tauto
    rw [buildQuery_filters_append np sp fs hn ?_]
    · rw [List.filter_filter]
      apply List.filter_congr
      intro d hd
      show matchesDoc _ d.item = _
      unfold matchesDoc
      rw [List.all_append]
      show (matchesDoc _ d.item && matchesDoc _ d.item) = _
      rw [matchesDoc_filterConds]
      exact Bool.and_comm _ _
    · intro kv hkv hmem
      obtain ⟨hne1, hne2, hne3⟩ := hfresh kv hkv
      rcases hbasekeys kv.1 hmem with h | h | h
      · exact hne1 h
      · exact hne2 h
      · exact hne3 h

/-- Closed instance for C8's amended statement: the concrete name search. -/
theorem c8_search_semantics_witness :
    searchCachedItems mugCupState (some "mug") none [] =
      mugCupState.items.filter (specNameMatches "mug") :=
  c8_search_semantics.1 mugCupState "mug" (by decide) (by decide)
